import Mathlib

/-!
Verification development for the `accentd` press-and-hold accent daemon.

The definitions below are a shallow embedding of the Rust sources:
  * `crates/accentd-core/src/charmap.rs`  (locale tables, keycode maps)
  * `crates/accentd-core/src/ipc.rs`      (IPC message types and line codec)
  * `crates/accentd/src/state_machine.rs` (the per-device 3-state machine)
  * `crates/accentd/src/main.rs`          (the daemon's SetLocale handler)

Modelling conventions:
  * `HashMap<String, Vec<String>>` becomes an association list with a
    `lookup` function (only lookup, insertion-free replacement and emptiness
    are used by the embedded code, all of which agree with the hash map).
  * `Instant` becomes a `Nat` of milliseconds on a monotonic clock; the
    `Instant::now()` calls inside the machine become an explicit `now`
    argument, and `started.elapsed()` becomes truncated subtraction
    `now - started` (matching `Instant`'s saturating behaviour).
  * `u8` becomes `Fin 256`; the wrapping subtraction `index - 1` performed
    on a `u8` in release profile becomes subtraction in `Fin 256`.
  * functions that mutate `&mut self` become state-passing functions
    returning the updated record (paired with the produced action list).
-/

namespace Accentd

/-! ## charmap.rs -/

/-- Model of `HashMap<String, Vec<String>>`: an association list of
(base letter, accent variants), ordered as written in the source. -/
abbrev LocaleMap := List (String × List String)

/-- Lookup in a `LocaleMap`, modelling `HashMap::get`. -/
def localeGet : LocaleMap → String → Option (List String)
  | [], _ => none
  | (k, v) :: rest, key => if k = key then some v else localeGet rest key

def locale_it : LocaleMap :=
  [ ("a", ["à", "á", "â", "ã", "ä"]),
    ("e", ["è", "é", "ê", "ë"]),
    ("i", ["ì", "í", "î", "ï"]),
    ("o", ["ò", "ó", "ô", "õ", "ö"]),
    ("u", ["ù", "ú", "û", "ü"]),
    ("n", ["ñ"]),
    ("c", ["ç"]) ]

def locale_es : LocaleMap :=
  [ ("a", ["á", "à", "â", "ä"]),
    ("e", ["é", "è", "ê", "ë"]),
    ("i", ["í", "ì", "î", "ï"]),
    ("o", ["ó", "ò", "ô", "ö"]),
    ("u", ["ú", "ù", "û", "ü"]),
    ("n", ["ñ"]),
    ("y", ["ý", "ÿ"]) ]

def locale_fr : LocaleMap :=
  [ ("a", ["à", "â", "æ", "á", "ä"]),
    ("e", ["è", "é", "ê", "ë", "æ"]),
    ("i", ["î", "ï", "í", "ì"]),
    ("o", ["ô", "œ", "ö", "ò", "ó"]),
    ("u", ["ù", "û", "ü", "ú"]),
    ("c", ["ç"]),
    ("y", ["ÿ"]) ]

def locale_de : LocaleMap :=
  [ ("a", ["ä", "à", "á", "â"]),
    ("e", ["ë", "è", "é", "ê"]),
    ("i", ["ï", "ì", "í", "î"]),
    ("o", ["ö", "ò", "ó", "ô"]),
    ("u", ["ü", "ù", "ú", "û"]),
    ("s", ["ß"]) ]

def locale_pt : LocaleMap :=
  [ ("a", ["ã", "á", "à", "â", "ä"]),
    ("e", ["é", "è", "ê", "ë"]),
    ("i", ["í", "ì", "î", "ï"]),
    ("o", ["õ", "ó", "ò", "ô", "ö"]),
    ("u", ["ú", "ù", "û", "ü"]),
    ("c", ["ç"]) ]

/-- Model of `charmap::builtin_locale`: the built-in accent map for a
locale name, empty for unknown names. -/
def builtin_locale (name : String) : LocaleMap :=
  if name = "it" then locale_it
  else if name = "es" then locale_es
  else if name = "fr" then locale_fr
  else if name = "de" then locale_de
  else if name = "pt" then locale_pt
  else []

/-- Model of Rust `char`-level uppercase mapping (`str::to_uppercase`),
restricted to the characters that occur in this program: ASCII letters and
the Latin accent characters of the built-in tables.  `ß` expands to the
two-character string `SS`, exactly as in Rust; every character the program
never manipulates is left unchanged. -/
def charUpperStr (c : Char) : List Char :=
  if c = 'ß' then ['S', 'S']
  else if c = 'ÿ' then ['Ÿ']
  else if c = 'œ' then ['Œ']
  else if 97 ≤ c.toNat ∧ c.toNat ≤ 122 then [Char.ofNat (c.toNat - 32)]
  else if (224 ≤ c.toNat ∧ c.toNat ≤ 246) ∨ (248 ≤ c.toNat ∧ c.toNat ≤ 254) then
    [Char.ofNat (c.toNat - 32)]
  else [c]

/-- Model of `str::to_uppercase` on the strings in scope. -/
def strUpper (s : String) : String :=
  String.mk (s.data.flatMap charUpperStr)

/-- Model of Rust `char`-level lowercase mapping for the characters in
scope (the machine only ever lowercases the ASCII base letters returned by
`keycode_to_base`). -/
def charLower (c : Char) : Char :=
  if (65 ≤ c.toNat ∧ c.toNat ≤ 90) ∨ (192 ≤ c.toNat ∧ c.toNat ≤ 214) ∨
     (216 ≤ c.toNat ∧ c.toNat ≤ 222) then Char.ofNat (c.toNat + 32)
  else c

/-- Model of `str::to_lowercase` on the strings in scope. -/
def strLower (s : String) : String :=
  String.mk (s.data.map charLower)

/-- Model of `charmap::resolve_accents`: given a base char and shift state,
return the accented variants, uppercased when `shift` is true. -/
def resolve_accents (locale_map : LocaleMap) (base : String) (shift : Bool) :
    Option (List String) :=
  match localeGet locale_map (strLower base) with
  | none => none
  | some accents => if shift then some (accents.map strUpper) else some accents

/-- Model of `charmap::keycode_to_base`: evdev keycode to base letter
(QWERTY layout), `none` for keys that are not accent-eligible. -/
def keycode_to_base (code : Nat) : Option String :=
  if code = 30 then some "a"
  else if code = 46 then some "c"
  else if code = 18 then some "e"
  else if code = 23 then some "i"
  else if code = 49 then some "n"
  else if code = 24 then some "o"
  else if code = 31 then some "s"
  else if code = 22 then some "u"
  else if code = 21 then some "y"
  else none

/-- Model of `charmap::keycode_to_digit`: keycodes 2..10 map to the
1-indexed digits 1..9, everything else to `none`. -/
def keycode_to_digit (code : Nat) : Option Nat :=
  if 2 ≤ code ∧ code ≤ 10 then some (code - 1) else none

/-! ## ipc.rs message types -/

/-- Model of `ipc::DaemonMsg` (labels are `Vec<u8>`). -/
inductive DaemonMsg where
  | ShowPopup (base : String) (accents : List String) (labels : List (Fin 256))
  | HidePopup
  | Status (enabled : Bool) (locale : String) (version : String)
  | Ack (ok : Bool) (message : String)
deriving DecidableEq

/-- Model of `ipc::ClientMsg` (`index` is a `u8`). -/
inductive ClientMsg where
  | Select (index : Fin 256)
  | Dismiss
  | Toggle
  | Enable
  | Disable
  | SetLocale (locale : String)
  | GetStatus
  | RegisterPopup
deriving DecidableEq

/-! ## state_machine.rs -/

/-- Model of `evdev::InputEvent`: an event type (EV_SYN = 0, EV_KEY = 1),
a keycode (`u16`) and a value (`i32`: 0 release, 1 press, 2 repeat). -/
structure InputEvent where
  eventType : Nat
  code : Nat
  value : Int
deriving DecidableEq

/-- Constant for `EventType::KEY`. -/
def EV_KEY : Nat := 1

/-- Model of the private `State` enum of the state machine. -/
inductive MachineState where
  | Idle
  | Holding (base : String) (accents : List String) (key_code : Nat)
      (shift : Bool) (started : Nat)
  | Popup (base : String) (accents : List String) (key_code : Nat)
      (started : Nat)
deriving DecidableEq

/-- Model of `state_machine::Action`. -/
inductive Action where
  | Relay (event : InputEvent)
  | SendPopup (msg : DaemonMsg)
  | EmitAccent (s : String)
  | Suppress
deriving DecidableEq

/-- Model of the `StateMachine` struct. -/
structure StateMachine where
  state : MachineState
  locale_map : LocaleMap
  threshold_ms : Nat
  popup_timeout_ms : Nat
  enabled : Bool
  ctrl_held : Bool
  alt_held : Bool
  super_held : Bool
  shift_held : Bool
deriving DecidableEq

/-- Model of the configuration record handed to `StateMachine::new`
(general + popup + locale sections of `config.rs`). -/
structure Config where
  threshold_ms : Nat
  enabled : Bool
  font_size : Nat
  timeout_ms : Nat
  keep_open : Bool
  localeActive : String
  localeInline : List (String × LocaleMap)
deriving DecidableEq

/-- Model of `Config::default()`. -/
def Config.default : Config :=
  { threshold_ms := 300, enabled := true, font_size := 24,
    timeout_ms := 5000, keep_open := true, localeActive := "it",
    localeInline := [] }

/-- Model of `StateMachine::new`. -/
def StateMachine.new (config : Config) (locale_map : LocaleMap) : StateMachine :=
  { state := .Idle
    locale_map := locale_map
    threshold_ms := config.threshold_ms
    popup_timeout_ms := config.timeout_ms
    enabled := config.enabled
    ctrl_held := false
    alt_held := false
    super_held := false
    shift_held := false }

/-- Model of `StateMachine::set_enabled`.  The Rust method returns `()`;
the empty action list records that it dispatches no actions. -/
def set_enabled (m : StateMachine) (enabled : Bool) : StateMachine × List Action :=
  let m := { m with enabled := enabled }
  if !enabled then ({ m with state := .Idle }, []) else (m, [])

/-- Model of `StateMachine::is_enabled`. -/
def is_enabled (m : StateMachine) : Bool := m.enabled

/-- Model of `StateMachine::set_locale_map`.  The Rust method returns `()`;
the empty action list records that it dispatches no actions. -/
def set_locale_map (m : StateMachine) (map : LocaleMap) : StateMachine × List Action :=
  ({ m with locale_map := map, state := .Idle }, [])

/-- Model of `StateMachine::check_timer`; `now` stands for the
`Instant::now()` reads, `started.elapsed()` becomes `now - started`. -/
def check_timer (m : StateMachine) (now : Nat) : StateMachine × List Action :=
  match m.state with
  | .Holding base accents key_code _shift started =>
    if now - started ≥ m.threshold_ms then
      let release : InputEvent := { eventType := EV_KEY, code := key_code, value := 0 }
      let labels : List (Fin 256) :=
        (List.range (accents.length % 256)).map
          (fun i => ⟨(i + 1) % 256, Nat.mod_lt _ (by omega)⟩)
      ({ m with state := .Popup base accents key_code now },
       [Action.Relay release,
        Action.SendPopup (DaemonMsg.ShowPopup base accents labels)])
    else (m, [])
  | .Popup _base _accents _key_code started =>
    if now - started ≥ m.popup_timeout_ms then
      ({ m with state := .Idle }, [Action.SendPopup DaemonMsg.HidePopup])
    else (m, [])
  | .Idle => (m, [])

/-- Model of `StateMachine::next_deadline`. -/
def next_deadline (m : StateMachine) : Option Nat :=
  match m.state with
  | .Holding _ _ _ _ started => some (started + m.threshold_ms)
  | .Popup _ _ _ started => some (started + m.popup_timeout_ms)
  | .Idle => none

/-- Model of `StateMachine::ipc_select`.  `(index - 1) as usize` is a
wrapping `u8` subtraction in the shipped (release-profile) binary, modelled
by subtraction in `Fin 256`. -/
def ipc_select (m : StateMachine) (index : Fin 256) : StateMachine × List Action :=
  match m.state with
  | .Popup _base accents _key_code _started =>
    let idx : Nat := (index - 1).val
    if h : idx < accents.length then
      ({ m with state := .Idle },
       [Action.SendPopup DaemonMsg.HidePopup,
        Action.EmitAccent (accents.get ⟨idx, h⟩)])
    else (m, [])
  | _ => (m, [])

/-- Model of `StateMachine::ipc_dismiss`. -/
def ipc_dismiss (m : StateMachine) : StateMachine × List Action :=
  match m.state with
  | .Popup _ _ _ _ =>
    ({ m with state := .Idle }, [Action.SendPopup DaemonMsg.HidePopup])
  | _ => (m, [])

/-- Model of `StateMachine::update_modifiers` (left and right variants OR
into one flag; press sets, release clears, repeat leaves unchanged). -/
def update_modifiers (m : StateMachine) (event : InputEvent) : StateMachine :=
  let setFlag : Bool → Bool := fun old =>
    if event.value = 1 then true else if event.value = 0 then false else old
  if event.code = 29 ∨ event.code = 97 then { m with ctrl_held := setFlag m.ctrl_held }
  else if event.code = 56 ∨ event.code = 100 then { m with alt_held := setFlag m.alt_held }
  else if event.code = 125 ∨ event.code = 126 then { m with super_held := setFlag m.super_held }
  else if event.code = 42 ∨ event.code = 54 then { m with shift_held := setFlag m.shift_held }
  else m

/-- Model of `StateMachine::handle_idle`. -/
def handle_idle (m : StateMachine) (event : InputEvent) (code : Nat) (value : Int)
    (now : Nat) : StateMachine × List Action :=
  if value ≠ 1 then (m, [Action.Relay event])
  else if m.ctrl_held || m.alt_held || m.super_held then (m, [Action.Relay event])
  else
    let shift := m.shift_held
    match keycode_to_base code with
    | some base =>
      match resolve_accents m.locale_map base shift with
      | some accents =>
        if accents ≠ [] then
          ({ m with state := .Holding base accents code shift now },
           [Action.Relay event])
        else (m, [Action.Relay event])
      | none => (m, [Action.Relay event])
    | none => (m, [Action.Relay event])

/-- Model of `StateMachine::handle_holding` (the non-`Holding` branch is
unreachable from `process_event`). -/
def handle_holding (m : StateMachine) (event : InputEvent) (code : Nat)
    (value : Int) : StateMachine × List Action :=
  match m.state with
  | .Holding _base _accents held_code _shift _started =>
    if code = held_code ∧ value = 2 then (m, [Action.Suppress])
    else if code = held_code ∧ value = 0 then
      ({ m with state := .Idle }, [Action.Relay event])
    else if value = 1 then
      ({ m with state := .Idle }, [Action.Relay event])
    else (m, [Action.Relay event])
  | _ => (m, [])

/-- Model of `StateMachine::handle_popup` (the non-`Popup` branch is
unreachable from `process_event`). -/
def handle_popup (m : StateMachine) (event : InputEvent) (code : Nat)
    (value : Int) : StateMachine × List Action :=
  match m.state with
  | .Popup _base accents popup_code _started =>
    if code = popup_code ∧ value = 2 then (m, [Action.Suppress])
    else if code = popup_code ∧ value = 0 then
      ({ m with state := .Idle },
       [Action.SendPopup DaemonMsg.HidePopup, Action.Suppress])
    else if code = 1 ∧ value = 1 then
      ({ m with state := .Idle },
       [Action.SendPopup DaemonMsg.HidePopup, Action.Suppress])
    else if value = 1 then
      match keycode_to_digit code with
      | some digit =>
        if h : digit - 1 < accents.length then
          ({ m with state := .Idle },
           [Action.SendPopup DaemonMsg.HidePopup,
            Action.EmitAccent (accents.get ⟨digit - 1, h⟩)])
        else
          ({ m with state := .Idle },
           [Action.SendPopup DaemonMsg.HidePopup, Action.Relay event])
      | none =>
        ({ m with state := .Idle },
         [Action.SendPopup DaemonMsg.HidePopup, Action.Relay event])
    else (m, [Action.Suppress])
  | _ => (m, [])

/-- Model of `StateMachine::process_event`. -/
def process_event (m : StateMachine) (event : InputEvent) (now : Nat) :
    StateMachine × List Action :=
  let m := if event.eventType = EV_KEY then update_modifiers m event else m
  if event.eventType ≠ EV_KEY then (m, [Action.Relay event])
  else
    let code := event.code
    let value := event.value
    if !m.enabled then (m, [Action.Relay event])
    else
      match m.state with
      | .Idle => handle_idle m event code value now
      | .Holding _ _ _ _ _ => handle_holding m event code value
      | .Popup _ _ _ _ => handle_popup m event code value

/-! ## ipc.rs line codec

The Rust codec delegates to `serde_json` (`to_string` / `from_str`) with
internally tagged enums (`#[serde(tag = "type")]`).  The model below embeds
that behaviour concretely: a JSON value type, serde_json's compact renderer
(with its string-escaping rules), a parser for the documents the renderer
produces, and the tagged (de)serialization of the two message enums.  The
parser covers the compact documents `serde_json::to_string` emits;
whitespace-tolerant parsing of non-canonical documents is not needed by any
claim and is not modelled.  Strings are handled as `List Char` (Rust
strings and Lean strings are both sequences of Unicode scalar values). -/

/-- Lowercase hexadecimal digit, as serde_json emits in `\u00XX` escapes. -/
def hexDigitChar (n : Nat) : Char :=
  if n < 10 then Char.ofNat (48 + n) else Char.ofNat (87 + n)

/-- Value of a hexadecimal digit character. -/
def hexVal (c : Char) : Option Nat :=
  if 48 ≤ c.toNat ∧ c.toNat ≤ 57 then some (c.toNat - 48)
  else if 97 ≤ c.toNat ∧ c.toNat ≤ 102 then some (c.toNat - 87)
  else if 65 ≤ c.toNat ∧ c.toNat ≤ 70 then some (c.toNat - 55)
  else none

/-- serde_json's JSON string escaping: quote, backslash, the five named
control escapes, `\u00XX` for the remaining control characters, everything
else verbatim. -/
def escapeChar (c : Char) : List Char :=
  if c = '"' then ['\\', '"']
  else if c = '\\' then ['\\', '\\']
  else if c = Char.ofNat 8 then ['\\', 'b']
  else if c = '\t' then ['\\', 't']
  else if c = '\n' then ['\\', 'n']
  else if c = Char.ofNat 12 then ['\\', 'f']
  else if c = '\r' then ['\\', 'r']
  else if c.toNat < 32 then
    ['\\', 'u', '0', '0', hexDigitChar (c.toNat / 16), hexDigitChar (c.toNat % 16)]
  else [c]

/-- JSON documents (the fragment serde_json uses for these two message
enums: strings, unsigned numbers, booleans, arrays, objects). -/
inductive Json where
  | str (s : List Char)
  | num (n : Nat)
  | bool (b : Bool)
  | arr (xs : List Json)
  | obj (fields : List (List Char × Json))

/-- Rendered JSON string literal. -/
def renderString (s : List Char) : List Char :=
  '"' :: s.flatMap escapeChar ++ ['"']

/-- Decimal digit accumulator; the fuel always suffices because it starts
at `n + 1`. -/
def natToDigitsAux : Nat → Nat → List Char → List Char
  | 0, _, acc => acc
  | fuel + 1, n, acc =>
    if n < 10 then Char.ofNat (48 + n) :: acc
    else natToDigitsAux fuel (n / 10) (Char.ofNat (48 + n % 10) :: acc)

/-- Decimal digits of a natural number. -/
def natToDigits (n : Nat) : List Char :=
  natToDigitsAux (n + 1) n []

mutual

/-- serde_json's compact rendering (no whitespace). -/
def render : Json → List Char
  | .str s => renderString s
  | .num n => natToDigits n
  | .bool true => ['t', 'r', 'u', 'e']
  | .bool false => ['f', 'a', 'l', 's', 'e']
  | .arr [] => ['[', ']']
  | .arr (x :: xs) => '[' :: (render x ++ renderItems xs) ++ [']']
  | .obj [] => ['\x7b', '\x7d']
  | .obj ((k, v) :: fs) =>
    '\x7b' :: (renderString k ++ ':' :: render v ++ renderFields fs) ++ ['\x7d']

/-- Comma-prefixed renderings of the remaining array items. -/
def renderItems : List Json → List Char
  | [] => []
  | x :: xs => ',' :: render x ++ renderItems xs

/-- Comma-prefixed renderings of the remaining object members. -/
def renderFields : List (List Char × Json) → List Char
  | [] => []
  | (k, v) :: fs => ',' :: renderString k ++ ':' :: render v ++ renderFields fs

end

/-- Named single-character escapes accepted after a backslash. -/
def escMap (e : Char) : Option Char :=
  if e = '"' then some '"'
  else if e = '\\' then some '\\'
  else if e = '/' then some '/'
  else if e = 'b' then some (Char.ofNat 8)
  else if e = 'f' then some (Char.ofNat 12)
  else if e = 'n' then some '\n'
  else if e = 'r' then some '\r'
  else if e = 't' then some '\t'
  else none

/-- JSON string-literal body parser (after the opening quote, up to and
including the closing quote); raw control characters are rejected, as in
serde_json. -/
def parseStringBody : List Char → Option (List Char × List Char)
  | [] => none
  | c :: cs =>
    if c = '"' then some ([], cs)
    else if c = '\\' then
      match cs with
      | [] => none
      | e :: cs2 =>
        if e = 'u' then
          match cs2 with
          | h1 :: h2 :: h3 :: h4 :: cs3 =>
            match hexVal h1, hexVal h2, hexVal h3, hexVal h4 with
            | some a, some b, some c2, some d =>
              let code := ((a * 16 + b) * 16 + c2) * 16 + d
              if Nat.isValidChar code then
                match parseStringBody cs3 with
                | some (s, r) => some (Char.ofNat code :: s, r)
                | none => none
              else none
            | _, _, _, _ => none
          | _ => none
        else
          match escMap e with
          | some c2 =>
            match parseStringBody cs2 with
            | some (s, r) => some (c2 :: s, r)
            | none => none
          | none => none
    else if c.toNat < 32 then none
    else
      match parseStringBody cs with
      | some (s, r) => some (c :: s, r)
      | none => none

/-- Decimal digit test. -/
def isDigitChar (c : Char) : Bool := 48 ≤ c.toNat ∧ c.toNat ≤ 57

/-- Value of a digit string (most significant first). -/
def digitsVal (ds : List Char) : Nat :=
  ds.foldl (fun a c => 10 * a + (c.toNat - 48)) 0

/-- Number token parser (the non-negative integers these messages use). -/
def parseNum (cs : List Char) : Option (Json × List Char) :=
  let ds := cs.takeWhile isDigitChar
  if ds = [] then none
  else some (Json.num (digitsVal ds), cs.dropWhile isDigitChar)

mutual

/-- Fuelled JSON document parser (enough fuel is one more than the input
length). -/
def parseValue : Nat → List Char → Option (Json × List Char)
  | 0, _ => none
  | fuel + 1, cs =>
    match cs with
    | [] => none
    | c :: rest =>
      if c = '"' then
        match parseStringBody rest with
        | some (s, r) => some (.str s, r)
        | none => none
      else if c = '[' then
        if rest.head? = some ']' then some (.arr [], rest.tail)
        else
          match parseItems fuel rest with
          | some (xs, r) => some (.arr xs, r)
          | none => none
      else if c = '\x7b' then
        if rest.head? = some '\x7d' then some (.obj [], rest.tail)
        else
          match parseMembers fuel rest with
          | some (fs, r) => some (.obj fs, r)
          | none => none
      else if c = 't' then
        if rest.take 3 = ['r', 'u', 'e'] then some (.bool true, rest.drop 3)
        else none
      else if c = 'f' then
        if rest.take 4 = ['a', 'l', 's', 'e'] then some (.bool false, rest.drop 4)
        else none
      else parseNum (c :: rest)

/-- Items of a non-empty array, each followed by `,` or the closing `]`. -/
def parseItems : Nat → List Char → Option (List Json × List Char)
  | 0, _ => none
  | fuel + 1, cs =>
    match parseValue fuel cs with
    | some (v, r) =>
      if r.head? = some ']' then some ([v], r.tail)
      else if r.head? = some ',' then
        match parseItems fuel r.tail with
        | some (vs, r3) => some (v :: vs, r3)
        | none => none
      else none
    | none => none

/-- Members of a non-empty object, `"key":value` separated by `,` up to the
closing brace. -/
def parseMembers : Nat → List Char → Option (List (List Char × Json) × List Char)
  | 0, _ => none
  | fuel + 1, cs =>
    if cs.head? = some '"' then
      match parseStringBody cs.tail with
      | some (k, r) =>
        if r.head? = some ':' then
          match parseValue fuel r.tail with
          | some (v, r2) =>
            if r2.head? = some '\x7d' then some ([(k, v)], r2.tail)
            else if r2.head? = some ',' then
              match parseMembers fuel r2.tail with
              | some (fs, r3) => some ((k, v) :: fs, r3)
              | none => none
            else none
          | none => none
        else none
      | none => none
    else none

end

/-- serde serialization of `DaemonMsg` (internally tagged, tag `type`,
fields in declaration order). -/
def toJsonDaemon : DaemonMsg → Json
  | .ShowPopup base accents labels =>
    .obj [("type".data, .str "show_popup".data),
          ("base".data, .str base.data),
          ("accents".data, .arr (accents.map (fun a => .str a.data))),
          ("labels".data, .arr (labels.map (fun l => .num l.val)))]
  | .HidePopup => .obj [("type".data, .str "hide_popup".data)]
  | .Status enabled locale version =>
    .obj [("type".data, .str "status".data),
          ("enabled".data, .bool enabled),
          ("locale".data, .str locale.data),
          ("version".data, .str version.data)]
  | .Ack ok message =>
    .obj [("type".data, .str "ack".data),
          ("ok".data, .bool ok),
          ("message".data, .str message.data)]

/-- serde serialization of `ClientMsg`. -/
def toJsonClient : ClientMsg → Json
  | .Select index =>
    .obj [("type".data, .str "select".data),
          ("index".data, .num index.val)]
  | .Dismiss => .obj [("type".data, .str "dismiss".data)]
  | .Toggle => .obj [("type".data, .str "toggle".data)]
  | .Enable => .obj [("type".data, .str "enable".data)]
  | .Disable => .obj [("type".data, .str "disable".data)]
  | .SetLocale locale =>
    .obj [("type".data, .str "set_locale".data),
          ("locale".data, .str locale.data)]
  | .GetStatus => .obj [("type".data, .str "get_status".data)]
  | .RegisterPopup => .obj [("type".data, .str "register_popup".data)]

/-- First value bound to a key in a JSON object. -/
def lookupField : List (List Char × Json) → List Char → Option Json
  | [], _ => none
  | (k, v) :: fs, key => if k = key then some v else lookupField fs key

def jsonToStr : Json → Option String
  | .str s => some (String.mk s)
  | _ => none

def jsonToBool : Json → Option Bool
  | .bool b => some b
  | _ => none

/-- Deserialize a `u8` field: numbers above 255 are rejected, as serde
does. -/
def jsonToU8 : Json → Option (Fin 256)
  | .num n => if h : n < 256 then some ⟨n, h⟩ else none
  | _ => none

def jsonStrList : Json → Option (List String)
  | .arr xs => xs.mapM jsonToStr
  | _ => none

def jsonU8List : Json → Option (List (Fin 256))
  | .arr xs => xs.mapM jsonToU8
  | _ => none

/-- serde deserialization of the internally tagged `DaemonMsg`. -/
def fromJsonDaemon : Json → Option DaemonMsg
  | .obj fs =>
    match lookupField fs "type".data with
    | some (.str t) =>
      if t = "show_popup".data then
        match lookupField fs "base".data, lookupField fs "accents".data,
              lookupField fs "labels".data with
        | some jb, some ja, some jl =>
          match jsonToStr jb, jsonStrList ja, jsonU8List jl with
          | some base, some accents, some labels =>
            some (.ShowPopup base accents labels)
          | _, _, _ => none
        | _, _, _ => none
      else if t = "hide_popup".data then some .HidePopup
      else if t = "status".data then
        match lookupField fs "enabled".data, lookupField fs "locale".data,
              lookupField fs "version".data with
        | some je, some jl, some jv =>
          match jsonToBool je, jsonToStr jl, jsonToStr jv with
          | some enabled, some locale, some version =>
            some (.Status enabled locale version)
          | _, _, _ => none
        | _, _, _ => none
      else if t = "ack".data then
        match lookupField fs "ok".data, lookupField fs "message".data with
        | some jo, some jm =>
          match jsonToBool jo, jsonToStr jm with
          | some ok, some message => some (.Ack ok message)
          | _, _ => none
        | _, _ => none
      else none
    | _ => none
  | _ => none

/-- serde deserialization of the internally tagged `ClientMsg`. -/
def fromJsonClient : Json → Option ClientMsg
  | .obj fs =>
    match lookupField fs "type".data with
    | some (.str t) =>
      if t = "select".data then
        match lookupField fs "index".data with
        | some ji =>
          match jsonToU8 ji with
          | some index => some (.Select index)
          | none => none
        | none => none
      else if t = "dismiss".data then some .Dismiss
      else if t = "toggle".data then some .Toggle
      else if t = "enable".data then some .Enable
      else if t = "disable".data then some .Disable
      else if t = "set_locale".data then
        match lookupField fs "locale".data with
        | some jl =>
          match jsonToStr jl with
          | some locale => some (.SetLocale locale)
          | none => none
        | none => none
      else if t = "get_status".data then some .GetStatus
      else if t = "register_popup".data then some .RegisterPopup
      else none
    | _ => none
  | _ => none

/-- Rust `char::is_whitespace` (the Unicode White_Space property). -/
def isWsp (c : Char) : Bool :=
  let n := c.toNat
  n = 32 || (9 ≤ n && n ≤ 13) || n = 0x85 || n = 0xA0 || n = 0x1680 ||
  (0x2000 ≤ n && n ≤ 0x200A) || n = 0x2028 || n = 0x2029 || n = 0x202F ||
  n = 0x205F || n = 0x3000

/-- Model of Rust `str::trim`. -/
def trimChars (cs : List Char) : List Char :=
  ((cs.dropWhile isWsp).reverse.dropWhile isWsp).reverse

/-- Model of `ipc::encode` at `DaemonMsg` (serde_json line plus trailing
newline). -/
def encode_daemon (msg : DaemonMsg) : List Char :=
  render (toJsonDaemon msg) ++ ['\n']

/-- Model of `ipc::encode` at `ClientMsg`. -/
def encode_client (msg : ClientMsg) : List Char :=
  render (toJsonClient msg) ++ ['\n']

/-- Model of `ipc::decode_daemon`: trim, treat the empty line as no
message, otherwise parse the whole line as one JSON document and decode
it. -/
def decode_daemon (line : List Char) : Option DaemonMsg :=
  let t := trimChars line
  if t = [] then none
  else
    match parseValue (t.length + 1) t with
    | some (j, []) => fromJsonDaemon j
    | _ => none

/-- Model of `ipc::decode_client`. -/
def decode_client (line : List Char) : Option ClientMsg :=
  let t := trimChars line
  if t = [] then none
  else
    match parseValue (t.length + 1) t with
    | some (j, []) => fromJsonClient j
    | _ => none

/-- Head of the remaining input is not a digit (so a number token cannot
over-consume). -/
def headNotDigit : List Char → Prop
  | [] => True
  | c :: _ => isDigitChar c = false

/-! ## config.rs locale loading and the main.rs SetLocale handler -/

/-- Lookup in the inline `[locale.<name>]` tables of the config. -/
def lookupInline : List (String × LocaleMap) → String → Option LocaleMap
  | [], _ => none
  | (k, v) :: rest, key => if k = key then some v else lookupInline rest key

/-- Built-in step of `Config::load_locale_map`: the built-in table if it is
non-empty, else the error `locale '<name>' not found`. -/
def load_locale_builtin (c : Config) : Except String LocaleMap :=
  let builtin := builtin_locale c.localeActive
  if builtin ≠ [] then Except.ok builtin
  else Except.error ("locale '" ++ c.localeActive ++ "' not found")

/-- Model of `Config::load_locale_map` with the runtime locale-file step
omitted (it reads the filesystem; the model corresponds to a system with
no locale files installed): a non-empty inline table for the active locale
wins, else the built-in table, else an error. -/
def load_locale_map (c : Config) : Except String LocaleMap :=
  match lookupInline c.localeInline c.localeActive with
  | some locale_map =>
    if locale_map ≠ [] then Except.ok locale_map
    else load_locale_builtin c
  | none => load_locale_builtin c

/-- Model of the `Shared` record of main.rs restricted to the fields the
SetLocale handler touches. -/
structure SharedState where
  config : Config
  state_machines : List StateMachine
deriving DecidableEq

/-- Model of the `ClientMsg::SetLocale` arm of `handle_ipc_client`: the
active locale is overwritten first, then the map is loaded; on success
every machine's map is replaced and `Ack{ok:true}` is queued, on failure
the machines are untouched — but the config keeps the new active locale —
and `Ack{ok:false, message:"failed to load locale '<x>': <e>"}` is
queued. -/
def handle_set_locale (shared : SharedState) (locale : String) :
    SharedState × DaemonMsg :=
  let config := { shared.config with localeActive := locale }
  match load_locale_map config with
  | Except.ok map =>
    ({ config := config,
       state_machines :=
         shared.state_machines.map (fun sm => (set_locale_map sm map).1) },
     DaemonMsg.Ack true ("locale set to " ++ locale))
  | Except.error e =>
    ({ config := config, state_machines := shared.state_machines },
     DaemonMsg.Ack false ("failed to load locale '" ++ locale ++ "': " ++ e))

/-! ## Auxiliary definitions used by the theorems -/

/-- Concrete shared state used by the C3 counterexample and witness. -/
def sharedIt : SharedState :=
  { config := Config.default
    state_machines := [StateMachine.new Config.default (builtin_locale "it")] }

/-- Keycodes treated as modifiers by `update_modifiers`. -/
def isModifierCode (code : Nat) : Bool :=
  code = 29 || code = 97 || code = 56 || code = 100 ||
  code = 125 || code = 126 || code = 42 || code = 54

/-- Invariant relating the enabled flag to the active state: a disabled
machine sits in Idle. -/
def DisabledIdle (m : StateMachine) : Prop :=
  m.enabled = false → m.state = MachineState.Idle

/-- Fixed Italian-locale machine used as concrete input by counterexamples
and witnesses. -/
def itMachine : StateMachine :=
  StateMachine.new Config.default (builtin_locale "it")

/-- The machine after `press e` at t=0 and `check_timer` at t=300: in Popup
over the four Italian accents of `e`. -/
def popupMachineE : StateMachine :=
  { itMachine with state := .Popup "e" ["è", "é", "ê", "ë"] 18 300 }

/-- A machine holding `e`, used by witnesses for the timer claims. -/
def holdingMachineE : StateMachine :=
  { itMachine with state := .Holding "e" ["è", "é", "ê", "ë"] 18 false 0 }

/-- A disabled machine, used by the C10 witness. -/
def disabledMachine : StateMachine :=
  { itMachine with enabled := false }

/-! ## Helper lemmas about the state machine -/

theorem update_modifiers_id (m : StateMachine) (e : InputEvent)
    (h : isModifierCode e.code = false) : update_modifiers m e = m := by
  simp only [isModifierCode, Bool.or_eq_false_iff, decide_eq_false_iff_not] at h
  obtain ⟨⟨⟨⟨⟨⟨⟨h1, h2⟩, h3⟩, h4⟩, h5⟩, h6⟩, h7⟩, h8⟩ := h
  simp [update_modifiers, h1, h2, h3, h4, h5, h6, h7, h8]

theorem update_modifiers_fields (m : StateMachine) (e : InputEvent) :
    (update_modifiers m e).state = m.state ∧
    (update_modifiers m e).enabled = m.enabled ∧
    (update_modifiers m e).locale_map = m.locale_map ∧
    (update_modifiers m e).threshold_ms = m.threshold_ms ∧
    (update_modifiers m e).popup_timeout_ms = m.popup_timeout_ms := by
  unfold update_modifiers
  split_ifs <;> exact ⟨rfl, rfl, rfl, rfl, rfl⟩

theorem handle_idle_shape (m : StateMachine) (e : InputEvent) (c : Nat) (v : Int)
    (now : Nat) : ∃ st, (handle_idle m e c v now).1 = { m with state := st } := by
  unfold handle_idle
  split_ifs <;> try exact ⟨m.state, rfl⟩
  rcases h : keycode_to_base c with _ | base
  · exact ⟨m.state, by simp [h]⟩
  · rcases h2 : resolve_accents m.locale_map base m.shift_held with _ | accents
    · exact ⟨m.state, by simp [h, h2]⟩
    · by_cases h3 : accents = []
      · exact ⟨m.state, by simp [h, h2, h3]⟩
      · exact ⟨.Holding base accents c m.shift_held now, by simp [h, h2, h3]⟩

theorem handle_idle_actions (m : StateMachine) (e : InputEvent) (c : Nat) (v : Int)
    (now : Nat) : (handle_idle m e c v now).2 = [Action.Relay e] := by
  unfold handle_idle
  split_ifs <;> try rfl
  rcases h : keycode_to_base c with _ | base
  · simp [h]
  · rcases h2 : resolve_accents m.locale_map base m.shift_held with _ | accents
    · simp [h, h2]
    · by_cases h3 : accents = [] <;> simp [h, h2, h3]

theorem handle_holding_shape (m : StateMachine) (e : InputEvent) (c : Nat) (v : Int) :
    ∃ st, (handle_holding m e c v).1 = { m with state := st } := by
  unfold handle_holding
  rcases m.state <;> simp only
  case Holding => split_ifs <;> exact ⟨_, rfl⟩
  all_goals exact ⟨m.state, rfl⟩

theorem handle_popup_shape (m : StateMachine) (e : InputEvent) (c : Nat) (v : Int) :
    ∃ st, (handle_popup m e c v).1 = { m with state := st } := by
  unfold handle_popup
  rcases m.state <;> simp only
  case Popup b acc kc st =>
    split_ifs <;> try exact ⟨_, rfl⟩
    rcases h : keycode_to_digit c with _ | d
    · exact ⟨.Idle, rfl⟩
    · by_cases h2 : d - 1 < acc.length
      · exact ⟨.Idle, by simp [h2]⟩
      · exact ⟨.Idle, by simp [h2]⟩
  all_goals exact ⟨m.state, rfl⟩

/-- Keycode facts extracted from `keycode_to_digit code = some n`. -/
theorem keycode_to_digit_bounds {code n : Nat}
    (h : keycode_to_digit code = some n) :
    2 ≤ code ∧ code ≤ 10 ∧ n = code - 1 := by
  unfold keycode_to_digit at h
  split_ifs at h with hc
  exact ⟨hc.1, hc.2, (Option.some_inj.mp h).symm⟩

theorem digit_code_not_modifier {code n : Nat}
    (h : keycode_to_digit code = some n) : isModifierCode code = false := by
  obtain ⟨h1, h2, _⟩ := keycode_to_digit_bounds h
  simp only [isModifierCode, Bool.or_eq_false_iff, decide_eq_false_iff_not]
  omega

theorem modifier_code_cases {c : Nat} (h : isModifierCode c = true) :
    c = 29 ∨ c = 97 ∨ c = 56 ∨ c = 100 ∨ c = 125 ∨ c = 126 ∨ c = 42 ∨ c = 54 := by
  simp only [isModifierCode, Bool.or_eq_true, decide_eq_true_eq] at h
  tauto

theorem modifier_not_digit {c : Nat} (h : isModifierCode c = true) :
    keycode_to_digit c = none := by
  have := modifier_code_cases h
  unfold keycode_to_digit
  rw [if_neg (by omega)]

theorem modifier_not_base {c : Nat} (h : isModifierCode c = true) :
    keycode_to_base c = none := by
  rcases modifier_code_cases h with rfl | rfl | rfl | rfl | rfl | rfl | rfl | rfl <;> rfl

theorem eligible_code_cases {c : Nat} (h : (keycode_to_base c).isSome = true) :
    c = 30 ∨ c = 46 ∨ c = 18 ∨ c = 23 ∨ c = 49 ∨ c = 24 ∨ c = 31 ∨ c = 22 ∨ c = 21 := by
  unfold keycode_to_base at h
  split_ifs at h with h1 h2 h3 h4 h5 h6 h7 h8 h9 <;> tauto

theorem handle_idle_not_eligible (m : StateMachine) (e : InputEvent) (c : Nat)
    (v : Int) (now : Nat) (h : keycode_to_base c = none) :
    handle_idle m e c v now = (m, [Action.Relay e]) := by
  unfold handle_idle
  split_ifs <;> simp [h]

theorem process_event_shape (m : StateMachine) (e : InputEvent) (now : Nat)
    (het : e.eventType = EV_KEY) :
    ∃ st, (process_event m e now).1 = { update_modifiers m e with state := st } := by
  unfold process_event
  simp only [het, if_pos rfl, ite_true, ne_eq, not_true_eq_false, if_false]
  by_cases hen : (update_modifiers m e).enabled = true
  · have hcond : (!(update_modifiers m e).enabled) = false := by rw [hen]; rfl
    rw [hcond]
    simp only [Bool.false_eq_true, if_false]
    rcases hstate : (update_modifiers m e).state with _ | ⟨b', a', k', s', t'⟩ | ⟨b', a', k', t'⟩ <;>
      dsimp only
    · exact handle_idle_shape _ e e.code e.value now
    · exact handle_holding_shape _ e e.code e.value
    · exact handle_popup_shape _ e e.code e.value
  · simp only [Bool.not_eq_true] at hen
    have hcond : (!(update_modifiers m e).enabled) = true := by rw [hen]; rfl
    rw [hcond]
    simp only [if_true]
    exact ⟨(update_modifiers m e).state, rfl⟩

theorem process_event_disabled (m : StateMachine) (e : InputEvent) (now : Nat)
    (hd : m.enabled = false) :
    (process_event m e now).2 = [Action.Relay e] ∧
    (process_event m e now).1.state = m.state ∧
    (process_event m e now).1.enabled = false := by
  have hfields := update_modifiers_fields m e
  unfold process_event
  by_cases het : e.eventType = EV_KEY
  · simp only [het, if_pos rfl, ite_true, ne_eq, not_true_eq_false, if_false]
    have hen : (update_modifiers m e).enabled = false := hfields.2.1.trans hd
    simp [hen, hfields.1]
  · simp [het, hd]

/-- Behaviour of a digit press in Popup state, shared by several
claims. -/
theorem process_event_popup_digit (m : StateMachine) (b : String) (acc : List String)
    (kc st : Nat) (e : InputEvent) (n : Nat) (now : Nat)
    (hst : m.state = .Popup b acc kc st) (hen : m.enabled = true)
    (het : e.eventType = EV_KEY) (hv : e.value = 1)
    (hd : keycode_to_digit e.code = some n) :
    (n ≤ acc.length →
      process_event m e now =
        ({ m with state := .Idle },
         [Action.SendPopup DaemonMsg.HidePopup,
          Action.EmitAccent (acc.getD (n - 1) "")])) ∧
    (acc.length < n →
      process_event m e now =
        ({ m with state := .Idle },
         [Action.SendPopup DaemonMsg.HidePopup, Action.Relay e])) := by
  obtain ⟨hc1, hc2, hn⟩ := keycode_to_digit_bounds hd
  have hum : update_modifiers m e = m :=
    update_modifiers_id m e (digit_code_not_modifier hd)
  have hne : ¬ (e.code = 1 ∧ e.value = 1) := by
    rintro ⟨h1, -⟩; omega
  have hge : 1 ≤ n := by omega
  unfold process_event
  simp only [het, if_pos, hum, EV_KEY, ite_true, ne_eq, not_true_eq_false, if_false,
    hen, Bool.not_true, Bool.false_eq_true, hst]
  unfold handle_popup
  rw [hst]
  simp only [hv, hd]
  norm_num [hne]
  have hcne : e.code ≠ 1 := by omega
  constructor
  · intro hle
    have hlt : n - 1 < acc.length := by omega
    simp [hlt, List.getD_eq_getElem, List.get_eq_getElem, hcne, hen]
  · intro hgt
    have hnlt : ¬ (n - 1 < acc.length) := by omega
    simp [hnlt, hcne, hen]

/-! ## Codec lemmas -/
theorem charOfNat_toNat {n : Nat} (h : n < 0xd800) : (Char.ofNat n).toNat = n := by
  have hv : n.isValidChar := Or.inl h
  rw [Char.ofNat, dif_pos hv]
  simp [Char.ofNatAux, Char.toNat, UInt32.toNat, BitVec.toNat_ofNatLt]

theorem hexVal_hexDigitChar : ∀ n, n < 16 → hexVal (hexDigitChar n) = some n := by
  decide

theorem parseStringBody_escape (s : List Char) (rest : List Char) :
    parseStringBody (s.flatMap escapeChar ++ '"' :: rest) = some (s, rest) := by
  induction s with
  | nil =>
    rw [List.flatMap_nil, List.nil_append, parseStringBody.eq_def]
    norm_num
  | cons c s ih =>
    rw [List.flatMap_cons, List.append_assoc]
    by_cases h1 : c = '"'
    · have hesc : escapeChar c = ['\\', '"'] := by rw [escapeChar, if_pos h1]
      rw [hesc, h1]
      simp only [List.cons_append, List.nil_append]
      rw [parseStringBody.eq_def]
      simp [escMap, ih]
    · by_cases h2 : c = '\\'
      · have hesc : escapeChar c = ['\\', '\\'] := by
          rw [escapeChar, if_neg h1, if_pos h2]
        rw [hesc, h2]
        simp only [List.cons_append, List.nil_append]
        rw [parseStringBody.eq_def]
        simp [escMap, ih]
      · by_cases h3 : c = Char.ofNat 8
        · have hesc : escapeChar c = ['\\', 'b'] := by
            rw [escapeChar, if_neg h1, if_neg h2, if_pos h3]
          rw [hesc, h3]
          simp only [List.cons_append, List.nil_append]
          rw [parseStringBody.eq_def]
          simp [escMap, ih]
        · by_cases h4 : c = '\t'
          · have hesc : escapeChar c = ['\\', 't'] := by
              rw [escapeChar, if_neg h1, if_neg h2, if_neg h3, if_pos h4]
            rw [hesc, h4]
            simp only [List.cons_append, List.nil_append]
            rw [parseStringBody.eq_def]
            simp [escMap, ih]
          · by_cases h5 : c = '\n'
            · have hesc : escapeChar c = ['\\', 'n'] := by
                rw [escapeChar, if_neg h1, if_neg h2, if_neg h3, if_neg h4, if_pos h5]
              rw [hesc, h5]
              simp only [List.cons_append, List.nil_append]
              rw [parseStringBody.eq_def]
              simp [escMap, ih]
            · by_cases h6 : c = Char.ofNat 12
              · have hesc : escapeChar c = ['\\', 'f'] := by
                  rw [escapeChar, if_neg h1, if_neg h2, if_neg h3, if_neg h4,
                    if_neg h5, if_pos h6]
                rw [hesc, h6]
                simp only [List.cons_append, List.nil_append]
                rw [parseStringBody.eq_def]
                simp [escMap, ih]
              · by_cases h7 : c = '\r'
                · have hesc : escapeChar c = ['\\', 'r'] := by
                    rw [escapeChar, if_neg h1, if_neg h2, if_neg h3, if_neg h4,
                      if_neg h5, if_neg h6, if_pos h7]
                  rw [hesc, h7]
                  simp only [List.cons_append, List.nil_append]
                  rw [parseStringBody.eq_def]
                  simp [escMap, ih]
                · by_cases h8 : c.toNat < 32
                  · have hesc : escapeChar c =
                        ['\\', 'u', '0', '0', hexDigitChar (c.toNat / 16),
                         hexDigitChar (c.toNat % 16)] := by
                      rw [escapeChar, if_neg h1, if_neg h2, if_neg h3, if_neg h4,
                        if_neg h5, if_neg h6, if_neg h7, if_pos h8]
                    rw [hesc]
                    have hq : c.toNat / 16 < 16 := by omega
                    have hr : c.toNat % 16 < 16 := by omega
                    simp only [List.cons_append, List.nil_append]
                    rw [parseStringBody.eq_def]
                    norm_num [hexVal_hexDigitChar _ hq, hexVal_hexDigitChar _ hr]
                    rw [if_neg (show ¬ (('\\' : Char) = '"') from by decide)]
                    rw [show hexVal '0' = some 0 from by decide]
                    dsimp only
                    have hc : ((0 * 16 + 0) * 16 + c.toNat / 16) * 16 + c.toNat % 16 =
                        c.toNat := by omega
                    rw [hc]
                    have hvcd : Nat.isValidChar c.toNat := Or.inl (by omega)
                    rw [if_pos hvcd, ih]
                    simp [Char.ofNat_toNat]
                  · have hesc : escapeChar c = [c] := by
                      rw [escapeChar, if_neg h1, if_neg h2, if_neg h3, if_neg h4,
                        if_neg h5, if_neg h6, if_neg h7, if_neg h8]
                    rw [hesc]
                    simp only [List.cons_append, List.nil_append]
                    rw [parseStringBody.eq_def]
                    simp [h1, h2, h8, ih]

theorem natToDigitsAux_append (fuel : Nat) :
    ∀ n acc, natToDigitsAux fuel n acc = natToDigitsAux fuel n [] ++ acc := by
  induction fuel with
  | zero => intro n acc; rfl
  | succ fuel ih =>
    intro n acc
    rw [natToDigitsAux, natToDigitsAux]
    by_cases h : n < 10
    · rw [if_pos h, if_pos h]
      rfl
    · rw [if_neg h, if_neg h]
      rw [ih (n / 10) (Char.ofNat (48 + n % 10) :: acc),
          ih (n / 10) [Char.ofNat (48 + n % 10)]]
      simp

theorem natToDigitsAux_digits (fuel : Nat) :
    ∀ n acc, (∀ c ∈ acc, isDigitChar c = true) →
      ∀ c ∈ natToDigitsAux fuel n acc, isDigitChar c = true := by
  induction fuel with
  | zero => intro n acc hacc; exact hacc
  | succ fuel ih =>
    intro n acc hacc c hc
    rw [natToDigitsAux] at hc
    by_cases h : n < 10
    · rw [if_pos h] at hc
      rcases List.mem_cons.mp hc with rfl | hmem
      · simp only [isDigitChar, decide_eq_true_eq]
        rw [charOfNat_toNat (by omega)]
        omega
      · exact hacc c hmem
    · rw [if_neg h] at hc
      refine ih (n / 10) _ ?_ c hc
      intro d hd
      rcases List.mem_cons.mp hd with rfl | hmem
      · simp only [isDigitChar, decide_eq_true_eq]
        rw [charOfNat_toNat (by omega)]
        omega
      · exact hacc d hmem

theorem natToDigits_digits (n : Nat) :
    ∀ c ∈ natToDigits n, isDigitChar c = true :=
  natToDigitsAux_digits (n + 1) n [] (by intro c hc; cases hc)

theorem natToDigits_ne_nil (n : Nat) : natToDigits n ≠ [] := by
  rw [natToDigits, natToDigitsAux]
  by_cases h : n < 10
  · rw [if_pos h]
    simp
  · rw [if_neg h, natToDigitsAux_append]
    simp

theorem digitsVal_append_single (ds : List Char) (c : Char) :
    digitsVal (ds ++ [c]) = 10 * digitsVal ds + (c.toNat - 48) := by
  unfold digitsVal
  rw [List.foldl_append]
  rfl

theorem digitsVal_natToDigitsAux :
    ∀ fuel n, n < 10 ^ fuel → digitsVal (natToDigitsAux fuel n []) = n := by
  intro fuel
  induction fuel with
  | zero =>
    intro n hn
    interval_cases n
    rfl
  | succ fuel ih =>
    intro n hn
    rw [natToDigitsAux]
    by_cases h : n < 10
    · rw [if_pos h]
      unfold digitsVal
      simp only [List.foldl_cons, List.foldl_nil]
      rw [charOfNat_toNat (by omega)]
      omega
    · rw [if_neg h, natToDigitsAux_append]
      rw [digitsVal_append_single]
      rw [ih (n / 10) (by
        have := Nat.pow_succ 10 fuel
        have h10 : 0 < 10 := by omega
        omega)]
      rw [charOfNat_toNat (by omega)]
      omega

theorem digitsVal_natToDigits (n : Nat) : digitsVal (natToDigits n) = n := by
  rw [natToDigits]
  refine digitsVal_natToDigitsAux (n + 1) n ?_
  have h1 : n < 10 ^ n := Nat.lt_pow_self (by omega) n
  have h2 : 10 ^ n ≤ 10 ^ (n + 1) := Nat.pow_le_pow_right (by omega) (by omega)
  omega

theorem takeWhile_append_of_all (p : Char → Bool) :
    ∀ (l rest : List Char), (∀ c ∈ l, p c = true) →
      (match rest with | [] => True | c :: _ => p c = false) →
      (l ++ rest).takeWhile p = l ∧ (l ++ rest).dropWhile p = rest := by
  intro l
  induction l with
  | nil =>
    intro rest _ hr
    constructor
    · cases rest with
      | nil => rfl
      | cons c cs =>
        simp only [List.nil_append, List.takeWhile_cons, hr]
        rfl
    · cases rest with
      | nil => rfl
      | cons c cs =>
        simp only [List.nil_append, List.dropWhile_cons, hr]
        rfl
  | cons c l ih =>
    intro rest hl hr
    have hc : p c = true := hl c (List.mem_cons_self c l)
    have hrec := ih rest (fun d hd => hl d (List.mem_cons_of_mem c hd)) hr
    constructor
    · simp only [List.cons_append, List.takeWhile_cons, hc, hrec.1]
      rfl
    · simp only [List.cons_append, List.dropWhile_cons, hc, hrec.2]
      rfl

theorem parseNum_natToDigits (n : Nat) (rest : List Char)
    (hr : headNotDigit rest) :
    parseNum (natToDigits n ++ rest) = some (Json.num n, rest) := by
  have hall := natToDigits_digits n
  have hsplit := takeWhile_append_of_all isDigitChar (natToDigits n) rest hall
    (by cases rest with
        | nil => trivial
        | cons c cs => exact hr)
  unfold parseNum
  rw [hsplit.1, hsplit.2]
  rw [if_neg (natToDigits_ne_nil n)]
  rw [digitsVal_natToDigits]

/-- Every rendered value is nonempty and starts with a character that is
not `]`, not the closing brace and not a comma or colon. -/
theorem render_cons (j : Json) :
    ∃ c cs, render j = c :: cs ∧ c ≠ ']' ∧ c ≠ '\x7d' := by
  match j with
  | .str s => exact ⟨'"', _, rfl, by decide, by decide⟩
  | .num n =>
    obtain ⟨c, cs, hc⟩ := List.exists_cons_of_ne_nil (natToDigits_ne_nil n)
    have hdig : isDigitChar c = true := by
      refine natToDigits_digits n c ?_
      rw [hc]
      exact List.mem_cons_self c cs
    refine ⟨c, cs, hc, ?_, ?_⟩
    · intro h
      subst h
      simp [isDigitChar] at hdig
    · intro h
      subst h
      simp [isDigitChar] at hdig
  | .bool true => exact ⟨'t', _, rfl, by decide, by decide⟩
  | .bool false => exact ⟨'f', _, rfl, by decide, by decide⟩
  | .arr [] => exact ⟨'[', _, rfl, by decide, by decide⟩
  | .arr (x :: xs) => exact ⟨'[', _, rfl, by decide, by decide⟩
  | .obj [] => exact ⟨'\x7b', _, rfl, by decide, by decide⟩
  | .obj ((k, v) :: fs) => exact ⟨'\x7b', _, rfl, by decide, by decide⟩

/-! ## Claim theorems -/

/-- C1 counterexample: in Popup over the four accents of `e`, pressing the
digit key for 9 (keycode 10, 9 > 4 accents) does NOT return exactly
`[SendPopup HidePopup]` as the claim states — the digit event is also
relayed, via the unrelated-key dismissal branch. -/
theorem C1_out_of_range_digit_relays :
    popupMachineE.state = MachineState.Popup "e" ["è", "é", "ê", "ë"] 18 300 ∧
    popupMachineE.enabled = true ∧
    keycode_to_digit 10 = some 9 ∧
    (process_event popupMachineE ⟨1, 10, 1⟩ 301).2 ≠
      [Action.SendPopup DaemonMsg.HidePopup] ∧
    (process_event popupMachineE ⟨1, 10, 1⟩ 301).2 =
      [Action.SendPopup DaemonMsg.HidePopup, Action.Relay ⟨1, 10, 1⟩] := by
  decide

/-- C1 (amended): in Popup state of an enabled machine, a press of a digit
keycode with `keycode_to_digit = some n` goes to Idle and returns exactly
`[SendPopup HidePopup, EmitAccent accents[n-1]]` when `n <= len(accents)`,
and exactly `[SendPopup HidePopup, Relay event]` (the digit event is
relayed as an unrelated key) when `n > len(accents)`. -/
theorem C1_popup_digit (m : StateMachine) (b : String) (acc : List String)
    (kc st : Nat) (e : InputEvent) (n : Nat) (now : Nat)
    (hst : m.state = .Popup b acc kc st) (hen : m.enabled = true)
    (het : e.eventType = EV_KEY) (hv : e.value = 1)
    (hd : keycode_to_digit e.code = some n) :
    (n ≤ acc.length →
      process_event m e now =
        ({ m with state := .Idle },
         [Action.SendPopup DaemonMsg.HidePopup,
          Action.EmitAccent (acc.getD (n - 1) "")])) ∧
    (acc.length < n →
      process_event m e now =
        ({ m with state := .Idle },
         [Action.SendPopup DaemonMsg.HidePopup, Action.Relay e])) :=
  process_event_popup_digit m b acc kc st e n now hst hen het hv hd

/-- C1 witness: pressing the digit key for 1 in the concrete Popup machine
selects the first accent. -/
theorem C1_popup_digit_witness :
    process_event popupMachineE ⟨1, 2, 1⟩ 301 =
      ({ popupMachineE with state := .Idle },
       [Action.SendPopup DaemonMsg.HidePopup,
        Action.EmitAccent (["è", "é", "ê", "ë"].getD 0 "")]) :=
  (C1_popup_digit popupMachineE "e" ["è", "é", "ê", "ë"] 18 300 ⟨1, 2, 1⟩ 1 301
    rfl rfl rfl rfl (by decide)).1 (by decide)

/-- C2 counterexample: in Popup state a press of left-shift (a modifier
key) does NOT return exactly `[Relay(event)]` with the state unchanged as
the claim states — it dismisses the popup, returning
`[SendPopup HidePopup, Relay(event)]` and moving to Idle. -/
theorem C2_modifier_in_popup :
    popupMachineE.state = MachineState.Popup "e" ["è", "é", "ê", "ë"] 18 300 ∧
    isModifierCode 42 = true ∧
    (process_event popupMachineE ⟨1, 42, 1⟩ 301).2 ≠
      [Action.Relay ⟨1, 42, 1⟩] ∧
    (process_event popupMachineE ⟨1, 42, 1⟩ 301).1.state ≠ popupMachineE.state ∧
    (process_event popupMachineE ⟨1, 42, 1⟩ 301).2 =
      [Action.SendPopup DaemonMsg.HidePopup, Action.Relay ⟨1, 42, 1⟩] := by
  decide

/-- C2 (amended): every modifier key event updates the corresponding held
flag in every state, but only in Idle (or when disabled) is the result
exactly `[Relay(event)]` with the active state unchanged; in Holding a
modifier press cancels the hold to Idle with `[Relay(event)]` while a
release/repeat leaves the state; in Popup a modifier press dismisses
(`[SendPopup HidePopup, Relay(event)]`, to Idle) and a release/repeat is
suppressed with the state unchanged. -/
theorem C2_modifier_events (m : StateMachine) (e : InputEvent) (now : Nat)
    (het : e.eventType = EV_KEY) (hmod : isModifierCode e.code = true) :
    ((process_event m e now).1.ctrl_held = (update_modifiers m e).ctrl_held ∧
     (process_event m e now).1.alt_held = (update_modifiers m e).alt_held ∧
     (process_event m e now).1.super_held = (update_modifiers m e).super_held ∧
     (process_event m e now).1.shift_held = (update_modifiers m e).shift_held) ∧
    (m.state = .Idle →
      process_event m e now = (update_modifiers m e, [Action.Relay e])) ∧
    (m.enabled = false →
      process_event m e now = (update_modifiers m e, [Action.Relay e])) ∧
    (∀ b acc kc sh st, m.state = .Holding b acc kc sh st → m.enabled = true →
      (keycode_to_base kc).isSome = true →
      (e.value = 1 →
        process_event m e now =
          ({ update_modifiers m e with state := .Idle }, [Action.Relay e])) ∧
      (e.value = 0 ∨ e.value = 2 →
        process_event m e now = (update_modifiers m e, [Action.Relay e]))) ∧
    (∀ b acc kc st, m.state = .Popup b acc kc st → m.enabled = true →
      (keycode_to_base kc).isSome = true →
      (e.value = 1 →
        process_event m e now =
          ({ update_modifiers m e with state := .Idle },
           [Action.SendPopup DaemonMsg.HidePopup, Action.Relay e])) ∧
      (e.value = 0 ∨ e.value = 2 →
        process_event m e now = (update_modifiers m e, [Action.Suppress]))) := by
  have hfields := update_modifiers_fields m e
  refine ⟨?_, ?_, ?_, ?_, ?_⟩
  · obtain ⟨st, hsh⟩ := process_event_shape m e now het
    rw [hsh]
    exact ⟨rfl, rfl, rfl, rfl⟩
  · intro hst
    unfold process_event
    simp only [het, if_pos rfl, ite_true, ne_eq, not_true_eq_false, if_false]
    by_cases hen : (update_modifiers m e).enabled
    · simp only [hen, Bool.not_true, Bool.false_eq_true, if_false, hfields.1, hst]
      exact handle_idle_not_eligible _ e e.code e.value now (modifier_not_base hmod)
    · simp only [Bool.not_eq_true] at hen
      simp [hen]
  · intro hd
    have hen : (update_modifiers m e).enabled = false := hfields.2.1.trans hd
    unfold process_event
    simp only [het, if_pos rfl, ite_true, ne_eq, not_true_eq_false, if_false]
    simp [hen]
  · intro b acc kc sh st hst hen helig
    have hne : e.code ≠ kc := by
      have h1 := modifier_code_cases hmod
      have h2 := eligible_code_cases helig
      omega
    have hen' : (update_modifiers m e).enabled = true := hfields.2.1.trans hen
    have hst' : (update_modifiers m e).state = .Holding b acc kc sh st :=
      hfields.1.trans hst
    unfold process_event
    simp only [het, if_pos rfl, ite_true, ne_eq, not_true_eq_false, if_false,
      hen', Bool.not_true, Bool.false_eq_true, if_false, hst']
    unfold handle_holding
    rw [hst']
    simp only [hne, false_and, if_false]
    constructor
    · intro hv
      simp [hv, hen']
    · rintro (hv | hv) <;> simp [hv, hen']
  · intro b acc kc st hst hen helig
    have hne : e.code ≠ kc := by
      have h1 := modifier_code_cases hmod
      have h2 := eligible_code_cases helig
      omega
    have hcode1 : e.code ≠ 1 := by
      have h1 := modifier_code_cases hmod
      omega
    have hen' : (update_modifiers m e).enabled = true := hfields.2.1.trans hen
    have hst' : (update_modifiers m e).state = .Popup b acc kc st :=
      hfields.1.trans hst
    unfold process_event
    simp only [het, if_pos rfl, ite_true, ne_eq, not_true_eq_false, if_false,
      hen', Bool.not_true, Bool.false_eq_true, if_false, hst']
    unfold handle_popup
    rw [hst']
    simp only [hne, false_and, if_false, hcode1, modifier_not_digit hmod]
    constructor
    · intro hv
      simp [hv, hen']
    · rintro (hv | hv) <;> simp [hv, hen']

/-- C2 witness: a left-ctrl press on the fresh Idle machine updates the
flag and relays. -/
theorem C2_modifier_events_witness :
    process_event itMachine ⟨1, 29, 1⟩ 0 =
      (update_modifiers itMachine ⟨1, 29, 1⟩, [Action.Relay ⟨1, 29, 1⟩]) :=
  (C2_modifier_events itMachine ⟨1, 29, 1⟩ 0 rfl rfl).2.1 rfl

/-- C3 counterexample: `SetLocale "zz"` fails to load, the machines and
their maps are untouched and the failure Ack carries the specified
message, but the config's active locale has already been overwritten with
"zz" and is NOT rolled back — the daemon state is not left unchanged. -/
theorem C3_locale_not_rolled_back :
    (handle_set_locale sharedIt "zz").2 =
      DaemonMsg.Ack false "failed to load locale 'zz': locale 'zz' not found" ∧
    (handle_set_locale sharedIt "zz").1.state_machines = sharedIt.state_machines ∧
    sharedIt.config.localeActive = "it" ∧
    (handle_set_locale sharedIt "zz").1.config.localeActive = "zz" ∧
    (handle_set_locale sharedIt "zz").1.config.localeActive ≠
      sharedIt.config.localeActive := by
  decide

/-- C3 (amended): for every SetLocale message the handler first overwrites
the config's active locale; when the load succeeds every machine gets the
new map (and is forced Idle) and `Ack{ok:true}` is queued; when the load
fails the machines are untouched and `Ack{ok:false, "failed to load locale
'<x>': <reason>"}` is queued, but the config keeps the new (failing)
active locale. -/
theorem C3_set_locale (shared : SharedState) (locale : String) :
    (∀ map,
      load_locale_map { shared.config with localeActive := locale } =
        Except.ok map →
      handle_set_locale shared locale =
        ({ config := { shared.config with localeActive := locale },
           state_machines :=
             shared.state_machines.map
               (fun sm => { sm with locale_map := map, state := .Idle }) },
         DaemonMsg.Ack true ("locale set to " ++ locale))) ∧
    (∀ e,
      load_locale_map { shared.config with localeActive := locale } =
        Except.error e →
      handle_set_locale shared locale =
        ({ config := { shared.config with localeActive := locale },
           state_machines := shared.state_machines },
         DaemonMsg.Ack false ("failed to load locale '" ++ locale ++ "': " ++ e))) := by
  constructor
  · intro map hload
    dsimp only at hload
    unfold handle_set_locale
    dsimp only
    rw [hload]
    rfl
  · intro e hload
    dsimp only at hload
    unfold handle_set_locale
    dsimp only
    rw [hload]

/-- C3 witness: the concrete failing SetLocale. -/
theorem C3_set_locale_witness :
    handle_set_locale sharedIt "zz" =
      ({ config := { sharedIt.config with localeActive := "zz" },
         state_machines := sharedIt.state_machines },
       DaemonMsg.Ack false "failed to load locale 'zz': locale 'zz' not found") :=
  (C3_set_locale sharedIt "zz").2 "locale 'zz' not found" rfl

/-- C4 counterexample: with four accents, `ipc_select(9)` returns the
empty vector and STAYS in Popup, while the in-popup press of the digit key
for 9 dismisses to Idle (relaying the event) — the two are not equivalent
for an out-of-range index. -/
theorem C4_out_of_range_differs :
    popupMachineE.state = MachineState.Popup "e" ["è", "é", "ê", "ë"] 18 300 ∧
    keycode_to_digit 10 = some 9 ∧
    ipc_select popupMachineE ⟨9, by omega⟩ = (popupMachineE, []) ∧
    (process_event popupMachineE ⟨1, 10, 1⟩ 301).1.state = MachineState.Idle ∧
    (ipc_select popupMachineE ⟨9, by omega⟩).1.state ≠
      (process_event popupMachineE ⟨1, 10, 1⟩ 301).1.state := by
  decide

/-- C4 (amended): for an enabled machine in Popup, `ipc_select(n)` with
`n <= len(accents)` produces exactly the transition and the action vector
of the in-popup digit-key press for n; for `n > len(accents)` the two
differ (`ipc_select` returns `[]` keeping Popup, the press dismisses and
relays).  `ipc_dismiss()` equals the in-popup ESC press minus the trailing
`Suppress` of the ESC event.  Outside Popup both IPC calls return the
empty vector. -/
theorem C4_ipc_equivalence (m : StateMachine) (now : Nat) :
    (∀ b acc kc st n (h1 : 1 ≤ n) (h9 : n ≤ 9),
      m.state = .Popup b acc kc st → m.enabled = true →
      (n ≤ acc.length →
        ipc_select m ⟨n, by omega⟩ = process_event m ⟨EV_KEY, n + 1, 1⟩ now) ∧
      (acc.length < n →
        ipc_select m ⟨n, by omega⟩ = (m, []) ∧
        process_event m ⟨EV_KEY, n + 1, 1⟩ now =
          ({ m with state := .Idle },
           [Action.SendPopup DaemonMsg.HidePopup,
            Action.Relay ⟨EV_KEY, n + 1, 1⟩]))) ∧
    (∀ b acc kc st, m.state = .Popup b acc kc st → m.enabled = true →
      ipc_dismiss m = ({ m with state := .Idle },
        [Action.SendPopup DaemonMsg.HidePopup]) ∧
      process_event m ⟨EV_KEY, 1, 1⟩ now =
        ({ m with state := .Idle },
         [Action.SendPopup DaemonMsg.HidePopup, Action.Suppress])) ∧
    ((∀ b acc kc st, m.state ≠ .Popup b acc kc st) →
      ipc_select m ⟨1, by omega⟩ = (m, []) ∧ ipc_dismiss m = (m, [])) := by
  refine ⟨?_, ?_, ?_⟩
  · intro b acc kc st n h1 h9 hst hen
    have hd : keycode_to_digit (n + 1) = some n := by
      unfold keycode_to_digit
      rw [if_pos (by omega)]
      simp
    have hdig := process_event_popup_digit m b acc kc st ⟨EV_KEY, n + 1, 1⟩ n now
      hst hen rfl rfl hd
    have hsubval : ((⟨n, by omega⟩ : Fin 256) - 1).val = n - 1 := by
      rw [Fin.sub_def]
      norm_num
      omega
    constructor
    · intro hle
      rw [hdig.1 hle]
      unfold ipc_select
      rw [hst]
      dsimp only
      rw [hsubval]
      have hlt : n - 1 < acc.length := by omega
      rw [dif_pos hlt]
      simp [List.getD_eq_getElem, List.get_eq_getElem, List.getElem?_eq_getElem hlt]
    · intro hgt
      refine ⟨?_, hdig.2 hgt⟩
      unfold ipc_select
      rw [hst]
      dsimp only
      rw [hsubval]
      rw [dif_neg (by omega)]
  · intro b acc kc st hst hen
    constructor
    · unfold ipc_dismiss
      rw [hst]
    · have hum : update_modifiers m ⟨EV_KEY, 1, 1⟩ = m :=
        update_modifiers_id m _ (by decide)
      have hst' : (update_modifiers m ⟨EV_KEY, 1, 1⟩).state = .Popup b acc kc st := by
        rw [hum, hst]
      have hen' : (update_modifiers m ⟨EV_KEY, 1, 1⟩).enabled = true := by
        rw [hum, hen]
      unfold process_event
      simp only [if_pos rfl, ite_true, ne_eq, not_true_eq_false, if_false,
        hen', Bool.not_true, Bool.false_eq_true, hst']
      unfold handle_popup
      rw [hst']
      norm_num
      rw [hum]
      simp
  · intro h
    constructor
    · unfold ipc_select
      rcases hst : m.state with _ | ⟨b', acc', kc', sh', st'⟩ | ⟨b', acc', kc', st'⟩
      · rfl
      · rfl
      · exact absurd hst (h b' acc' kc' st')
    · unfold ipc_dismiss
      rcases hst : m.state with _ | ⟨b', acc', kc', sh', st'⟩ | ⟨b', acc', kc', st'⟩
      · rfl
      · rfl
      · exact absurd hst (h b' acc' kc' st')

/-- C4 witness: selecting index 1 over the concrete Popup machine equals
the in-popup press of the `1` key. -/
theorem C4_ipc_equivalence_witness :
    ipc_select popupMachineE ⟨1, by omega⟩ =
      process_event popupMachineE ⟨EV_KEY, 2, 1⟩ 301 :=
  ((C4_ipc_equivalence popupMachineE 301).1 "e" ["è", "é", "ê", "ë"] 18 300 1
    (by decide) (by decide) rfl rfl).1 (by decide)

/-- C5 counterexample: `set_enabled(false)` and `set_locale_map` force a
Popup machine to Idle while producing zero `SendPopup(HidePopup)` actions,
contradicting the claim that every Popup-to-Idle transition of every listed
operation produces exactly one. -/
theorem C5_set_enabled_no_hide :
    popupMachineE.state = MachineState.Popup "e" ["è", "é", "ê", "ë"] 18 300 ∧
    (set_enabled popupMachineE false).1.state = MachineState.Idle ∧
    ((set_enabled popupMachineE false).2).count
      (Action.SendPopup DaemonMsg.HidePopup) = 0 ∧
    (set_locale_map popupMachineE (builtin_locale "fr")).1.state = MachineState.Idle ∧
    ((set_locale_map popupMachineE (builtin_locale "fr")).2).count
      (Action.SendPopup DaemonMsg.HidePopup) = 0 := by
  decide

/-- C5 (amended): from Popup state, every Popup-to-Idle transition of
`process_event`, `check_timer`, `ipc_select` and `ipc_dismiss` carries
exactly one `SendPopup(HidePopup)`; the digit-selection press (and
`ipc_select` with a valid index) is the only producer of `EmitAccent`, and
its vector is exactly `[HidePopup, EmitAccent]` (HidePopup strictly
first); `set_enabled(false)` and `set_locale_map` also force Idle but
return no actions at all. -/
theorem C5_popup_convergence (m : StateMachine) (b : String) (acc : List String)
    (kc st : Nat) (hst : m.state = .Popup b acc kc st) :
    (∀ e now,
      ((process_event m e now).1.state = .Idle →
        ((process_event m e now).2).count (Action.SendPopup DaemonMsg.HidePopup) = 1) ∧
      (∀ s, Action.EmitAccent s ∈ (process_event m e now).2 →
        (process_event m e now).2 =
          [Action.SendPopup DaemonMsg.HidePopup, Action.EmitAccent s] ∧
        (process_event m e now).1.state = .Idle ∧
        e.value = 1 ∧
        ∃ d, keycode_to_digit e.code = some d ∧ d - 1 < acc.length ∧
          s = acc.getD (d - 1) "")) ∧
    (∀ now, (check_timer m now).1.state = .Idle →
      check_timer m now =
        ({ m with state := .Idle }, [Action.SendPopup DaemonMsg.HidePopup])) ∧
    (∀ i, ((ipc_select m i).1.state = .Idle →
        ∃ s, ipc_select m i =
          ({ m with state := .Idle },
           [Action.SendPopup DaemonMsg.HidePopup, Action.EmitAccent s])) ∧
      (∀ s, Action.EmitAccent s ∈ (ipc_select m i).2 →
        (i - 1).val < acc.length ∧ s = acc.getD ((i - 1).val) "")) ∧
    (ipc_dismiss m = ({ m with state := .Idle }, [Action.SendPopup DaemonMsg.HidePopup])) ∧
    (∀ map, (set_enabled m false).1.state = .Idle ∧ (set_enabled m false).2 = [] ∧
      (set_locale_map m map).1.state = .Idle ∧ (set_locale_map m map).2 = []) := by
  have hne : MachineState.Popup b acc kc st ≠ MachineState.Idle := by
    intro h; cases h
  refine ⟨?_, ?_, ?_, ?_, ?_⟩
  · intro e now
    have hfields := update_modifiers_fields m e
    by_cases het : e.eventType = EV_KEY
    · by_cases hen : (update_modifiers m e).enabled = true
      · have hst' : (update_modifiers m e).state = .Popup b acc kc st :=
          hfields.1.trans hst
        have hpe : process_event m e now =
            handle_popup (update_modifiers m e) e e.code e.value := by
          unfold process_event
          have hcond : (!(update_modifiers m e).enabled) = false := by rw [hen]; rfl
          simp only [het, if_pos rfl, ite_true, ne_eq, not_true_eq_false, if_false,
            hcond, Bool.false_eq_true, hst']
        rw [hpe]
        unfold handle_popup
        rw [hst']
        dsimp only
        by_cases h1 : e.code = kc ∧ e.value = 2
        · rw [if_pos h1]
          constructor
          · intro habs
            exact absurd (hst'.symm.trans habs) hne
          · intro s hs
            simp at hs
        · rw [if_neg h1]
          by_cases h2 : e.code = kc ∧ e.value = 0
          · rw [if_pos h2]
            constructor
            · intro _; rfl
            · intro s hs
              simp at hs
          · rw [if_neg h2]
            by_cases h3 : e.code = 1 ∧ e.value = 1
            · rw [if_pos h3]
              constructor
              · intro _; rfl
              · intro s hs
                simp at hs
            · rw [if_neg h3]
              by_cases h4 : e.value = 1
              · rw [if_pos h4]
                rcases hd : keycode_to_digit e.code with _ | d
                · constructor
                  · intro _; rfl
                  · intro s hs
                    simp at hs
                · dsimp only
                  by_cases h5 : d - 1 < acc.length
                  · rw [dif_pos h5]
                    constructor
                    · intro _; rfl
                    · intro s hs
                      simp at hs
                      refine ⟨?_, rfl, h4, d, rfl, h5, ?_⟩
                      · rw [hs]
                        simp [List.get_eq_getElem]
                      · rw [hs]
                        simp [List.getElem?_eq_getElem h5]
                  · rw [dif_neg h5]
                    constructor
                    · intro _; rfl
                    · intro s hs
                      simp at hs
              · rw [if_neg h4]
                constructor
                · intro habs
                  exact absurd (hst'.symm.trans habs) hne
                · intro s hs
                  simp at hs
      · simp only [Bool.not_eq_true] at hen
        have hpe : process_event m e now = (update_modifiers m e, [Action.Relay e]) := by
          unfold process_event
          have hcond : (!(update_modifiers m e).enabled) = true := by rw [hen]; rfl
          simp only [het, if_pos rfl, ite_true, ne_eq, not_true_eq_false, if_false,
            hcond, if_true]
        rw [hpe]
        constructor
        · intro habs
          rw [hfields.1, hst] at habs
          exact absurd habs hne
        · intro s hs
          simp at hs
    · have hpe : process_event m e now = (m, [Action.Relay e]) := by
        unfold process_event
        simp [het]
      rw [hpe]
      constructor
      · intro habs
        rw [hst] at habs
        exact absurd habs hne
      · intro s hs
        simp at hs
  · intro now
    unfold check_timer
    rw [hst]
    dsimp only
    by_cases h : now - st ≥ m.popup_timeout_ms
    · rw [if_pos h]
      intro _; rfl
    · rw [if_neg h]
      intro habs
      exact absurd (hst.symm.trans habs) hne
  · intro i
    unfold ipc_select
    rw [hst]
    dsimp only
    by_cases h : (i - 1).val < acc.length
    · rw [dif_pos h]
      constructor
      · intro _
        exact ⟨_, rfl⟩
      · intro s hs
        simp at hs
        refine ⟨h, ?_⟩
        rw [hs]
        simp [List.getD_eq_getElem, List.get_eq_getElem, List.getElem?_eq_getElem h]
    · rw [dif_neg h]
      constructor
      · intro habs
        exact absurd (hst.symm.trans habs) hne
      · intro s hs
        simp at hs
  · unfold ipc_dismiss
    rw [hst]
  · intro map
    refine ⟨rfl, rfl, rfl, rfl⟩

/-- C5 witness: dismissing the concrete Popup machine yields exactly one
HidePopup. -/
theorem C5_popup_convergence_witness :
    ipc_dismiss popupMachineE =
      ({ popupMachineE with state := .Idle },
       [Action.SendPopup DaemonMsg.HidePopup]) :=
  (C5_popup_convergence popupMachineE "e" ["è", "é", "ê", "ë"] 18 300 rfl).2.2.2.1

/-- C6: in Holding state, once the threshold has elapsed `check_timer`
moves to Popup and returns the synthesized release of the held key at
position 0, strictly before the `ShowPopup` whose labels are 1..len, at
position 1; before the deadline it returns the empty vector and leaves the
machine unchanged.  (`len < 256` reflects the spec's 1..9-long sequences;
the labels are built through a `u8` cast.) -/
theorem C6_check_timer_holding (m : StateMachine) (b : String)
    (acc : List String) (kc : Nat) (sh : Bool) (st now : Nat)
    (hst : m.state = .Holding b acc kc sh st) (hlen : acc.length < 256) :
    (m.threshold_ms ≤ now - st →
      ∃ labels, check_timer m now =
        ({ m with state := .Popup b acc kc now },
         [Action.Relay { eventType := EV_KEY, code := kc, value := 0 },
          Action.SendPopup (DaemonMsg.ShowPopup b acc labels)]) ∧
        labels.map Fin.val = (List.range acc.length).map (fun i => i + 1)) ∧
    (now - st < m.threshold_ms → check_timer m now = (m, [])) := by
  unfold check_timer
  rw [hst]
  dsimp only
  have hmod : acc.length % 256 = acc.length := Nat.mod_eq_of_lt hlen
  constructor
  · intro h
    have hcond : now - st ≥ m.threshold_ms := h
    rw [if_pos hcond]
    refine ⟨_, rfl, ?_⟩
    rw [hmod, List.map_map]
    refine List.map_congr_left ?_
    intro i hi
    have : i < acc.length := List.mem_range.mp hi
    simp only [Function.comp_apply]
    omega
  · intro h
    have hcond : ¬ (now - st ≥ m.threshold_ms) := by omega
    rw [if_neg hcond]

/-- C6 witness: the concrete holding machine fires at t = 300 and produces
the release of keycode 18 followed by the ShowPopup with labels 1..4. -/
theorem C6_check_timer_holding_witness :
    ∃ labels, check_timer holdingMachineE 300 =
      ({ holdingMachineE with state := .Popup "e" ["è", "é", "ê", "ë"] 18 300 },
       [Action.Relay { eventType := EV_KEY, code := 18, value := 0 },
        Action.SendPopup (DaemonMsg.ShowPopup "e" ["è", "é", "ê", "ë"] labels)]) ∧
      labels.map Fin.val = (List.range 4).map (fun i => i + 1) :=
  (C6_check_timer_holding holdingMachineE "e" ["è", "é", "ê", "ë"] 18 false 0 300
    rfl (by decide)).1 (by decide)

/-- C7: any press (value 1) of an accent-eligible keycode processed in Idle
state has a Relay of that very event as the first returned action. -/
theorem C7_zero_latency (m : StateMachine) (e : InputEvent) (now : Nat)
    (hst : m.state = .Idle) (het : e.eventType = EV_KEY) (hv : e.value = 1)
    (helig : (keycode_to_base e.code).isSome = true) :
    ((process_event m e now).2).head? = some (Action.Relay e) := by
  have hstate := (update_modifiers_fields m e).1
  unfold process_event
  rw [het]
  simp only [EV_KEY, if_pos rfl, ite_true, ne_eq, not_true_eq_false, if_false]
  by_cases hen : (update_modifiers m e).enabled
  · simp only [hen, Bool.not_true, Bool.false_eq_true, if_false, hstate, hst,
      handle_idle_actions]
    rfl
  · simp only [Bool.not_eq_true] at hen
    simp [hen]

/-- C7 witness: pressing `e` (keycode 18) on the fresh Italian machine
relays it first. -/
theorem C7_zero_latency_witness :
    ((process_event itMachine ⟨1, 18, 1⟩ 0).2).head? =
      some (Action.Relay ⟨1, 18, 1⟩) :=
  C7_zero_latency itMachine ⟨1, 18, 1⟩ 0 rfl rfl rfl (by decide)

/-- C9: `ipc_select` is total over the whole `u8` range under the wrapping
(release-profile) semantics of `(index - 1) as usize`: in Popup state with
an index outside `1..=len(accents)` (index 0 wraps to 255) it returns the
empty action vector and leaves the machine — state, accents and pending
deadline — unchanged, and outside Popup state it always returns the empty
vector. -/
theorem C9_ipc_select_total (m : StateMachine) (index : Fin 256) :
    (∀ b acc kc st, m.state = .Popup b acc kc st → acc.length < 256 →
      (index.val = 0 ∨ acc.length < index.val) →
      ipc_select m index = (m, []) ∧
      next_deadline (ipc_select m index).1 = next_deadline m) ∧
    ((∀ b acc kc st, m.state ≠ .Popup b acc kc st) →
      ipc_select m index = (m, [])) := by
  constructor
  · intro b acc kc st hst hlen hout
    have hval : (index - 1).val = (index.val + 255) % 256 := by
      rw [Fin.sub_def]
      norm_num
      omega
    have hnot : ¬ ((index - 1).val < acc.length) := by
      rw [hval]
      rcases hout with h | h <;> omega
    have : ipc_select m index = (m, []) := by
      unfold ipc_select
      rw [hst]
      simp [hnot]
    exact ⟨this, by rw [this]⟩
  · intro h
    unfold ipc_select
    rcases hst : m.state with _ | ⟨b', acc', kc', sh', st'⟩ | ⟨b', acc', kc', st'⟩
    · rfl
    · rfl
    · exact absurd hst (h b' acc' kc' st')

/-- C9 witness: index 0 (which wraps to 255) on the concrete Popup machine
returns no actions and changes nothing. -/
theorem C9_ipc_select_total_witness :
    ipc_select popupMachineE 0 = (popupMachineE, []) :=
  ((C9_ipc_select_total popupMachineE 0).1 "e" ["è", "é", "ê", "ë"] 18 300
    rfl (by decide) (Or.inl rfl)).1

/-- C10: the disabled-implies-Idle invariant is established by `new`,
`set_enabled` and `set_locale_map`, preserved by every operation, forces
`next_deadline = none`, and makes a disabled machine answer `[Relay event]`
to every event and the empty vector to every timer or IPC operation — so it
can never produce a ShowPopup, EmitAccent or Suppress action. -/
theorem C10_disabled_idle :
    (∀ config map, DisabledIdle (StateMachine.new config map)) ∧
    (∀ m b, DisabledIdle (set_enabled m b).1) ∧
    (∀ m map, DisabledIdle (set_locale_map m map).1) ∧
    (∀ m e now, DisabledIdle m → DisabledIdle (process_event m e now).1) ∧
    (∀ m now, DisabledIdle m → DisabledIdle (check_timer m now).1) ∧
    (∀ m i, DisabledIdle m → DisabledIdle (ipc_select m i).1) ∧
    (∀ m, DisabledIdle m → DisabledIdle (ipc_dismiss m).1) ∧
    (∀ m, DisabledIdle m → m.enabled = false → next_deadline m = none) ∧
    (∀ m e now, m.enabled = false → (process_event m e now).2 = [Action.Relay e]) ∧
    (∀ m now, DisabledIdle m → m.enabled = false → check_timer m now = (m, [])) ∧
    (∀ m i, DisabledIdle m → m.enabled = false → ipc_select m i = (m, [])) ∧
    (∀ m, DisabledIdle m → m.enabled = false → ipc_dismiss m = (m, [])) := by
  refine ⟨?_, ?_, ?_, ?_, ?_, ?_, ?_, ?_, ?_, ?_, ?_, ?_⟩
  · intro config map
    intro _
    rfl
  · intro m b
    unfold set_enabled DisabledIdle
    cases b <;> simp
  · intro m map
    intro _
    rfl
  · intro m e now h
    intro hres
    by_cases hd : m.enabled = false
    · have := process_event_disabled m e now hd
      rw [this.2.1]
      exact h hd
    · simp only [Bool.not_eq_false] at hd
      exfalso
      have hfields := update_modifiers_fields m e
      revert hres
      unfold process_event
      by_cases het : e.eventType = EV_KEY
      · simp only [het, if_pos rfl, ite_true, ne_eq, not_true_eq_false, if_false]
        have hen : (update_modifiers m e).enabled = true := hfields.2.1.trans hd
        simp only [hen, Bool.not_true, Bool.false_eq_true, if_false]
        rcases hstate : (update_modifiers m e).state with _ | ⟨b', a', k', s', t'⟩ | ⟨b', a', k', t'⟩
        · obtain ⟨st', hsh⟩ := handle_idle_shape (update_modifiers m e) e e.code e.value now
          rw [hsh]
          simp [hen]
        · obtain ⟨st', hsh⟩ := handle_holding_shape (update_modifiers m e) e e.code e.value
          rw [hsh]
          simp [hen]
        · obtain ⟨st', hsh⟩ := handle_popup_shape (update_modifiers m e) e e.code e.value
          rw [hsh]
          simp [hen]
      · simp [het, hd]
  · intro m now h
    intro hres
    have henres : (check_timer m now).1.enabled = m.enabled := by
      unfold check_timer
      rcases m.state <;> simp only <;> split_ifs <;> rfl
    rw [henres] at hres
    have hidle := h hres
    unfold check_timer
    rw [hidle]
    exact hidle
  · intro m i h
    intro hres
    have henres : (ipc_select m i).1.enabled = m.enabled := by
      unfold ipc_select
      rcases m.state <;> simp only
      case Popup => split_ifs <;> rfl
    rw [henres] at hres
    have hidle := h hres
    unfold ipc_select
    rw [hidle]
    exact hidle
  · intro m h
    intro hres
    have henres : (ipc_dismiss m).1.enabled = m.enabled := by
      unfold ipc_dismiss
      rcases m.state <;> rfl
    rw [henres] at hres
    have hidle := h hres
    unfold ipc_dismiss
    rw [hidle]
    exact hidle
  · intro m h hd
    unfold next_deadline
    rw [h hd]
  · intro m e now hd
    exact (process_event_disabled m e now hd).1
  · intro m now h hd
    unfold check_timer
    rw [h hd]
  · intro m i h hd
    unfold ipc_select
    rw [h hd]
  · intro m h hd
    unfold ipc_dismiss
    rw [h hd]

/-- C10 witness: the concrete disabled machine satisfies the invariant
after processing a press of `e`. -/
theorem C10_disabled_idle_witness :
    DisabledIdle (process_event disabledMachine ⟨1, 18, 1⟩ 0).1 ∧
    (process_event disabledMachine ⟨1, 18, 1⟩ 0).2 =
      [Action.Relay ⟨1, 18, 1⟩] :=
  ⟨C10_disabled_idle.2.2.2.1 disabledMachine ⟨1, 18, 1⟩ 0 (fun _ => rfl),
   C10_disabled_idle.2.2.2.2.2.2.2.2.1 disabledMachine ⟨1, 18, 1⟩ 0 rfl⟩

theorem headNotDigit_renderItems (xs : List Json) (rest : List Char) :
    headNotDigit (renderItems xs ++ ']' :: rest) := by
  cases xs with
  | nil => exact (by decide : isDigitChar ']' = false)
  | cons x xs => exact (by decide : isDigitChar ',' = false)

theorem headNotDigit_renderFields (fs : List (List Char × Json)) (rest : List Char) :
    headNotDigit (renderFields fs ++ '\x7d' :: rest) := by
  cases fs with
  | nil => exact (by decide : isDigitChar '\x7d' = false)
  | cons f fs =>
    obtain ⟨k, v⟩ := f
    exact (by decide : isDigitChar ',' = false)

theorem parseValue_str (fuel : Nat) (s rest : List Char) :
    parseValue (fuel + 1) ('"' :: (s.flatMap escapeChar ++ '"' :: rest)) =
      some (Json.str s, rest) := by
  simp only [parseValue]
  rw [if_true, parseStringBody_escape]

theorem parseValue_true (fuel : Nat) (rest : List Char) :
    parseValue (fuel + 1) ('t' :: 'r' :: 'u' :: 'e' :: rest) =
      some (Json.bool true, rest) := by
  simp only [parseValue]
  rw [if_neg (by decide), if_neg (by decide), if_neg (by decide), if_true]
  rw [if_pos (by simp)]
  simp

theorem parseValue_false (fuel : Nat) (rest : List Char) :
    parseValue (fuel + 1) ('f' :: 'a' :: 'l' :: 's' :: 'e' :: rest) =
      some (Json.bool false, rest) := by
  simp only [parseValue]
  rw [if_neg (by decide), if_neg (by decide), if_neg (by decide),
    if_neg (by decide), if_true]
  rw [if_pos (by simp)]
  simp

theorem parseValue_arr_nil (fuel : Nat) (rest : List Char) :
    parseValue (fuel + 1) ('[' :: ']' :: rest) = some (Json.arr [], rest) := by
  simp only [parseValue]
  rw [if_neg (by decide), if_true]
  rw [if_pos (show (']' :: rest).head? = some ']' from rfl)]
  rfl

theorem parseValue_obj_nil (fuel : Nat) (rest : List Char) :
    parseValue (fuel + 1) ('\x7b' :: '\x7d' :: rest) = some (Json.obj [], rest) := by
  simp only [parseValue]
  rw [if_neg (by decide), if_neg (by decide), if_true]
  rw [if_pos (show ('\x7d' :: rest).head? = some '\x7d' from rfl)]
  rfl

theorem parse_render_all : ∀ fuel : Nat,
    (∀ j rest, (render j).length < fuel → headNotDigit rest →
      parseValue fuel (render j ++ rest) = some (j, rest)) ∧
    (∀ x xs rest, (render x ++ renderItems xs).length + 1 < fuel →
      parseItems fuel (render x ++ (renderItems xs ++ ']' :: rest)) =
        some (x :: xs, rest)) ∧
    (∀ k v fs rest,
      (renderString k).length + 1 + (render v).length +
        (renderFields fs).length + 1 < fuel →
      parseMembers fuel
          (renderString k ++ ':' :: (render v ++ (renderFields fs ++ '\x7d' :: rest))) =
        some ((k, v) :: fs, rest)) := by
  intro fuel
  induction fuel with
  | zero =>
    refine ⟨?_, ?_, ?_⟩
    · intro j rest h
      omega
    · intro x xs rest h
      omega
    · intro k v fs rest h
      omega
  | succ fuel ih =>
    obtain ⟨ihP, ihQ, ihR⟩ := ih
    refine ⟨?_, ?_, ?_⟩
    · intro j rest hlen hrest
      match j with
      | .str s =>
        rw [show render (Json.str s) = renderString s from rfl, renderString]
        simp only [List.cons_append, List.append_assoc, List.singleton_append]
        exact parseValue_str fuel s rest
      | .num n =>
        obtain ⟨c, cs', hc⟩ := List.exists_cons_of_ne_nil (natToDigits_ne_nil n)
        have hdig : isDigitChar c = true := by
          refine natToDigits_digits n c ?_
          rw [hc]
          exact List.mem_cons_self c cs'
        have h48 : 48 ≤ c.toNat ∧ c.toNat ≤ 57 := by
          simpa [isDigitChar] using hdig
        have hne1 : ¬ (c = '"') := by intro h; subst h; exact absurd h48 (by decide)
        have hne2 : ¬ (c = '[') := by intro h; subst h; exact absurd h48 (by decide)
        have hne3 : ¬ (c = '\x7b') := by intro h; subst h; exact absurd h48 (by decide)
        have hne4 : ¬ (c = 't') := by intro h; subst h; exact absurd h48 (by decide)
        have hne5 : ¬ (c = 'f') := by intro h; subst h; exact absurd h48 (by decide)
        rw [show render (Json.num n) = natToDigits n from rfl, hc, List.cons_append]
        simp only [parseValue]
        rw [if_neg hne1, if_neg hne2, if_neg hne3, if_neg hne4, if_neg hne5]
        rw [← List.cons_append, ← hc]
        exact parseNum_natToDigits n rest hrest
      | .bool true =>
        rw [show render (Json.bool true) = ['t', 'r', 'u', 'e'] from rfl]
        simp only [List.cons_append, List.nil_append]
        exact parseValue_true fuel rest
      | .bool false =>
        rw [show render (Json.bool false) = ['f', 'a', 'l', 's', 'e'] from rfl]
        simp only [List.cons_append, List.nil_append]
        exact parseValue_false fuel rest
      | .arr [] =>
        rw [show render (Json.arr []) = ['[', ']'] from rfl]
        simp only [List.cons_append, List.nil_append]
        exact parseValue_arr_nil fuel rest
      | .arr (x :: xs) =>
        rw [show render (Json.arr (x :: xs)) =
          '[' :: (render x ++ renderItems xs) ++ [']'] from rfl]
        simp only [List.cons_append, List.append_assoc, List.singleton_append,
          List.nil_append]
        simp only [parseValue]
        rw [if_neg (by decide), if_true]
        obtain ⟨cx, csx, hcx, hne1, hne2⟩ := render_cons x
        have hhead : (render x ++ (renderItems xs ++ ']' :: rest)).head? = some cx := by
          rw [hcx]
          rfl
        rw [hhead, if_neg (by simp [hne1])]
        have hfuel : (render x ++ renderItems xs).length + 1 < fuel := by
          rw [show render (Json.arr (x :: xs)) =
            '[' :: (render x ++ renderItems xs) ++ [']'] from rfl] at hlen
          simp only [List.length_cons, List.length_append,
            List.length_singleton] at hlen
          simp only [List.length_append]
          omega
        rw [ihQ x xs rest hfuel]
      | .obj [] =>
        rw [show render (Json.obj []) = ['\x7b', '\x7d'] from rfl]
        simp only [List.cons_append, List.nil_append]
        exact parseValue_obj_nil fuel rest
      | .obj ((k, v) :: fs) =>
        rw [show render (Json.obj ((k, v) :: fs)) =
          '\x7b' :: (renderString k ++ ':' :: render v ++ renderFields fs) ++ ['\x7d'] from rfl]
        simp only [List.cons_append, List.append_assoc, List.singleton_append,
          List.nil_append]
        simp only [parseValue]
        rw [if_neg (by decide), if_neg (by decide), if_true]
        have hhead :
            (renderString k ++ (':' :: (render v ++ (renderFields fs ++ '\x7d' :: rest)))).head? =
            some '"' := by
          rw [renderString]
          rfl
        rw [hhead, if_neg (by decide)]
        have hfuel : (renderString k).length + 1 + (render v).length +
            (renderFields fs).length + 1 < fuel := by
          rw [show render (Json.obj ((k, v) :: fs)) =
            '\x7b' :: (renderString k ++ ':' :: render v ++ renderFields fs) ++ ['\x7d'] from rfl] at hlen
          simp only [List.length_cons, List.length_append,
            List.length_singleton] at hlen
          omega
        rw [ihR k v fs rest hfuel]
    · intro x xs rest hlen
      simp only [parseItems]
      have hfx : (render x).length < fuel := by
        simp only [List.length_append] at hlen
        omega
      rw [ihP x (renderItems xs ++ ']' :: rest) hfx (headNotDigit_renderItems xs rest)]
      dsimp only
      cases xs with
      | nil =>
        simp only [renderItems, List.nil_append]
        rw [if_pos (show (']' :: rest).head? = some ']' from rfl)]
        rfl
      | cons x' xs' =>
        rw [show renderItems (x' :: xs') = ',' :: render x' ++ renderItems xs' from rfl]
        simp only [List.cons_append, List.append_assoc]
        rw [if_neg (show ¬ (',' :: (render x' ++ (renderItems xs' ++ ']' :: rest))).head? =
          some ']' from by rw [List.head?_cons]; decide)]
        rw [if_pos (show (',' :: (render x' ++ (renderItems xs' ++ ']' :: rest))).head? =
          some ',' from rfl)]
        have hfuel : (render x' ++ renderItems xs').length + 1 < fuel := by
          rw [show renderItems (x' :: xs') = ',' :: render x' ++ renderItems xs' from rfl] at hlen
          simp only [List.length_append, List.length_cons] at hlen ⊢
          omega
        rw [show (',' :: (render x' ++ (renderItems xs' ++ ']' :: rest))).tail =
          render x' ++ (renderItems xs' ++ ']' :: rest) from rfl]
        rw [ihQ x' xs' rest hfuel]
    · intro k v fs rest hlen
      simp only [parseMembers]
      have hhead :
          (renderString k ++ ':' :: (render v ++ (renderFields fs ++ '\x7d' :: rest))).head? =
          some '"' := by
        rw [renderString]
        rfl
      rw [hhead, if_pos rfl]
      have htail :
          (renderString k ++ ':' :: (render v ++ (renderFields fs ++ '\x7d' :: rest))).tail =
          k.flatMap escapeChar ++
            '"' :: (':' :: (render v ++ (renderFields fs ++ '\x7d' :: rest))) := by
        rw [renderString]
        simp only [List.cons_append, List.append_assoc, List.singleton_append]
        rfl
      rw [htail, parseStringBody_escape]
      dsimp only
      rw [if_pos (show (':' :: (render v ++ (renderFields fs ++ '\x7d' :: rest))).head? =
        some ':' from rfl)]
      rw [show (':' :: (render v ++ (renderFields fs ++ '\x7d' :: rest))).tail =
        render v ++ (renderFields fs ++ '\x7d' :: rest) from rfl]
      have hfv : (render v).length < fuel := by omega
      rw [ihP v (renderFields fs ++ '\x7d' :: rest) hfv (headNotDigit_renderFields fs rest)]
      dsimp only
      cases fs with
      | nil =>
        simp only [renderFields, List.nil_append]
        rw [if_pos (show ('\x7d' :: rest).head? = some '\x7d' from rfl)]
        rfl
      | cons f fs' =>
        obtain ⟨k', v'⟩ := f
        rw [show renderFields ((k', v') :: fs') =
          ',' :: renderString k' ++ ':' :: render v' ++ renderFields fs' from rfl]
        simp only [List.cons_append, List.append_assoc]
        rw [if_neg (show ¬ (',' :: (renderString k' ++ (':' :: (render v' ++
          (renderFields fs' ++ '\x7d' :: rest))))).head? = some '\x7d'
          from by rw [List.head?_cons]; decide)]
        rw [if_pos (show (',' :: (renderString k' ++ (':' :: (render v' ++
          (renderFields fs' ++ '\x7d' :: rest))))).head? = some ',' from rfl)]
        have hfuel : (renderString k').length + 1 + (render v').length +
            (renderFields fs').length + 1 < fuel := by
          rw [show renderFields ((k', v') :: fs') =
            ',' :: renderString k' ++ ':' :: render v' ++ renderFields fs' from rfl] at hlen
          simp only [List.length_append, List.length_cons] at hlen
          omega
        rw [show (',' :: (renderString k' ++ (':' :: (render v' ++
            (renderFields fs' ++ '\x7d' :: rest))))).tail =
          renderString k' ++ ':' :: (render v' ++ (renderFields fs' ++ '\x7d' :: rest))
          from rfl]
        rw [ihR k' v' fs' rest hfuel]

/-- The whole rendering of a document parses back with the fuel that
`decode` supplies. -/
theorem parse_render_doc (j : Json) :
    parseValue ((render j).length + 1) (render j) = some (j, []) := by
  have h := (parse_render_all ((render j).length + 1)).1 j []
    (by omega) (by exact trivial)
  rw [List.append_nil] at h
  exact h

/-- Trimming an encoded object line removes exactly the trailing
newline. -/
theorem trim_wrap (mid : List Char) :
    trimChars (('\x7b' :: mid ++ ['\x7d']) ++ ['\n']) =
      '\x7b' :: mid ++ ['\x7d'] := by
  unfold trimChars
  have h1 : (('\x7b' :: mid ++ ['\x7d']) ++ ['\n']) =
      '\x7b' :: (mid ++ ['\x7d'] ++ ['\n']) := by simp
  rw [h1, List.dropWhile_cons, if_neg (by decide)]
  have h2 : ('\x7b' :: (mid ++ ['\x7d'] ++ ['\n'])).reverse =
      '\n' :: '\x7d' :: (mid.reverse ++ ['\x7b']) := by
    simp [List.reverse_cons, List.reverse_append]
  rw [h2, List.dropWhile_cons, if_pos (by decide),
    List.dropWhile_cons, if_neg (by decide)]
  have h3 : ('\x7d' :: (mid.reverse ++ ['\x7b'])).reverse =
      '\x7b' :: mid ++ ['\x7d'] := by
    simp [List.reverse_cons, List.reverse_append]
  rw [h3]

/-- `hexDigitChar` never emits a newline. -/
theorem hexDigitChar_ne_nl (n : Nat) (h : n < 16) : hexDigitChar n ≠ '\n' := by
  unfold hexDigitChar
  by_cases h10 : n < 10
  · rw [if_pos h10]
    intro hc
    have hn := congrArg Char.toNat hc
    rw [charOfNat_toNat (show 48 + n < 0xd800 by omega)] at hn
    rw [show ('\n').toNat = 10 from rfl] at hn
    omega
  · rw [if_neg h10]
    intro hc
    have hn := congrArg Char.toNat hc
    rw [charOfNat_toNat (show 87 + n < 0xd800 by omega)] at hn
    rw [show ('\n').toNat = 10 from rfl] at hn
    omega

/-- The escape expansion of any character contains no raw newline. -/
theorem noNL_escapeChar (c : Char) : ('\n' : Char) ∉ escapeChar c := by
  unfold escapeChar
  split_ifs with h1 h2 h3 h4 h5 h6 h7 h8
  · decide
  · decide
  · decide
  · decide
  · decide
  · decide
  · decide
  · intro hm
    simp only [List.mem_cons, List.not_mem_nil, or_false] at hm
    rcases hm with h | h | h | h | h | h
    · exact absurd h (by decide)
    · exact absurd h (by decide)
    · exact absurd h (by decide)
    · exact absurd h (by decide)
    · exact hexDigitChar_ne_nl (c.toNat / 16) (by omega) h.symm
    · exact hexDigitChar_ne_nl (c.toNat % 16) (by omega) h.symm
  · intro hm
    simp only [List.mem_cons, List.not_mem_nil, or_false] at hm
    subst hm
    exact h5 rfl

/-- Rendered string literals contain no raw newline. -/
theorem noNL_renderString (s : List Char) : ('\n' : Char) ∉ renderString s := by
  unfold renderString
  intro hm
  rcases List.mem_cons.mp hm with h | h
  · exact absurd h (by decide)
  · rcases List.mem_append.mp h with h | h
    · obtain ⟨c, _, hc⟩ := List.mem_flatMap.mp h
      exact noNL_escapeChar c hc
    · exact absurd (List.mem_singleton.mp h) (by decide)

/-- The decimal digit accumulator adds no newline. -/
theorem noNL_natToDigitsAux : ∀ fuel n acc, ('\n' : Char) ∉ acc →
    ('\n' : Char) ∉ natToDigitsAux fuel n acc := by
  intro fuel
  induction fuel with
  | zero => intro n acc hacc; exact hacc
  | succ f ih =>
    intro n acc hacc
    unfold natToDigitsAux
    by_cases h10 : n < 10
    · rw [if_pos h10]
      intro hm
      rcases List.mem_cons.mp hm with h | h
      · have hn := congrArg Char.toNat h.symm
        rw [charOfNat_toNat (show 48 + n < 0xd800 by omega)] at hn
        rw [show ('\n').toNat = 10 from rfl] at hn
        omega
      · exact hacc h
    · rw [if_neg h10]
      refine ih (n / 10) _ ?_
      intro hm
      rcases List.mem_cons.mp hm with h | h
      · have hn := congrArg Char.toNat h.symm
        rw [charOfNat_toNat (show 48 + n % 10 < 0xd800 by omega)] at hn
        rw [show ('\n').toNat = 10 from rfl] at hn
        omega
      · exact hacc h

/-- Rendered numbers contain no newline. -/
theorem noNL_natToDigits (n : Nat) : ('\n' : Char) ∉ natToDigits n :=
  noNL_natToDigitsAux (n + 1) n [] (by simp)

/-- Item lists of rendered string documents contain no newline. -/
theorem noNL_renderItems_str (l : List String) :
    ('\n' : Char) ∉ renderItems (l.map (fun a => Json.str a.data)) := by
  induction l with
  | nil => simp [renderItems]
  | cons x xs ih =>
    simp only [List.map_cons]
    rw [show renderItems (Json.str x.data ::
        xs.map (fun a => Json.str a.data)) =
      ',' :: render (Json.str x.data) ++
        renderItems (xs.map (fun a => Json.str a.data)) from rfl]
    intro hm
    rcases List.mem_cons.mp hm with h | h
    · exact absurd h (by decide)
    · rcases List.mem_append.mp h with h | h
      · exact noNL_renderString x.data (by simpa [render] using h)
      · exact ih h

/-- Item lists of rendered number documents contain no newline. -/
theorem noNL_renderItems_num (l : List (Fin 256)) :
    ('\n' : Char) ∉ renderItems (l.map (fun a => Json.num a.val)) := by
  induction l with
  | nil => simp [renderItems]
  | cons x xs ih =>
    simp only [List.map_cons]
    rw [show renderItems (Json.num x.val ::
        xs.map (fun a => Json.num a.val)) =
      ',' :: render (Json.num x.val) ++
        renderItems (xs.map (fun a => Json.num a.val)) from rfl]
    intro hm
    rcases List.mem_cons.mp hm with h | h
    · exact absurd h (by decide)
    · rcases List.mem_append.mp h with h | h
      · exact noNL_natToDigits x.val (by simpa [render] using h)
      · exact ih h

/-- A mapped string array deserializes back to the original list. -/
theorem mapM_jsonToStr (l : List String) :
    (l.map (fun a => Json.str a.data)).mapM jsonToStr = some l := by
  induction l with
  | nil => rfl
  | cons x xs ih =>
    simp only [List.map_cons, List.mapM_cons, ih]
    rfl

/-- A `u8` rendered as a JSON number deserializes back to itself. -/
theorem jsonToU8_num_fin (x : Fin 256) : jsonToU8 (Json.num x.val) = some x := by
  unfold jsonToU8
  dsimp only
  rw [dif_pos x.isLt]

/-- A mapped `u8` array deserializes back to the original list. -/
theorem mapM_jsonToU8 (l : List (Fin 256)) :
    (l.map (fun a => Json.num a.val)).mapM jsonToU8 = some l := by
  induction l with
  | nil => rfl
  | cons x xs ih =>
    simp only [List.map_cons, List.mapM_cons, ih, jsonToU8_num_fin]
    rfl

/-- serde round trip at the JSON level for `DaemonMsg`. -/
theorem fromJson_toJson_daemon (m : DaemonMsg) :
    fromJsonDaemon (toJsonDaemon m) = some m := by
  cases m with
  | ShowPopup base accents labels =>
    show (match jsonToStr (Json.str base.data),
        jsonStrList (Json.arr (accents.map (fun a => Json.str a.data))),
        jsonU8List (Json.arr (labels.map (fun l => Json.num l.val))) with
      | some b, some a, some l => some (DaemonMsg.ShowPopup b a l)
      | _, _, _ => none) = some (DaemonMsg.ShowPopup base accents labels)
    rw [show jsonToStr (Json.str base.data) = some base from rfl]
    rw [show jsonStrList (Json.arr (accents.map (fun a => Json.str a.data))) =
      some accents from mapM_jsonToStr accents]
    rw [show jsonU8List (Json.arr (labels.map (fun l => Json.num l.val))) =
      some labels from mapM_jsonToU8 labels]
  | HidePopup => rfl
  | Status enabled locale version => rfl
  | Ack ok message => rfl

/-- serde round trip at the JSON level for `ClientMsg`. -/
theorem fromJson_toJson_client (m : ClientMsg) :
    fromJsonClient (toJsonClient m) = some m := by
  cases m with
  | Select index =>
    show (match jsonToU8 (Json.num index.val) with
      | some i => some (ClientMsg.Select i)
      | none => none) = some (ClientMsg.Select index)
    rw [jsonToU8_num_fin]
  | Dismiss => rfl
  | Toggle => rfl
  | Enable => rfl
  | Disable => rfl
  | SetLocale locale => rfl
  | GetStatus => rfl
  | RegisterPopup => rfl

/-- Rendered string documents contain no newline. -/
theorem noNL_render_str (s : List Char) :
    ('\n' : Char) ∉ render (Json.str s) := noNL_renderString s

/-- Rendered number documents contain no newline. -/
theorem noNL_render_num (n : Nat) :
    ('\n' : Char) ∉ render (Json.num n) := noNL_natToDigits n

/-- Rendered boolean documents contain no newline. -/
theorem noNL_render_bool (b : Bool) :
    ('\n' : Char) ∉ render (Json.bool b) := by
  cases b
  · decide
  · decide

/-- Rendered arrays of string documents contain no newline. -/
theorem noNL_render_arrStr (l : List String) :
    ('\n' : Char) ∉ render (Json.arr (l.map (fun a => Json.str a.data))) := by
  cases l with
  | nil => decide
  | cons x xs =>
    rw [show render (Json.arr ((x :: xs).map (fun a => Json.str a.data))) =
      '[' :: (render (Json.str x.data) ++
        renderItems (xs.map (fun a => Json.str a.data))) ++ [']'] from rfl]
    intro hm
    simp only [List.mem_append, List.mem_cons, List.mem_singleton] at hm
    rcases hm with (h | h | h) | h
    · exact absurd h (by decide)
    · exact noNL_renderString x.data h
    · exact noNL_renderItems_str xs h
    · exact absurd h (by decide)

/-- Rendered arrays of number documents contain no newline. -/
theorem noNL_render_arrNum (l : List (Fin 256)) :
    ('\n' : Char) ∉ render (Json.arr (l.map (fun a => Json.num a.val))) := by
  cases l with
  | nil => decide
  | cons x xs =>
    rw [show render (Json.arr ((x :: xs).map (fun a => Json.num a.val))) =
      '[' :: (render (Json.num x.val) ++
        renderItems (xs.map (fun a => Json.num a.val))) ++ [']'] from rfl]
    intro hm
    simp only [List.mem_append, List.mem_cons, List.mem_singleton] at hm
    rcases hm with (h | h | h) | h
    · exact absurd h (by decide)
    · exact noNL_natToDigits x.val h
    · exact noNL_renderItems_num xs h
    · exact absurd h (by decide)

/-- A member list whose values are newline-free renders newline-free. -/
theorem noNL_renderFields_cons (k : List Char) (v : Json)
    (fs : List (List Char × Json))
    (hv : ('\n' : Char) ∉ render v)
    (hfs : ('\n' : Char) ∉ renderFields fs) :
    ('\n' : Char) ∉ renderFields ((k, v) :: fs) := by
  rw [show renderFields ((k, v) :: fs) =
    ',' :: renderString k ++ ':' :: render v ++ renderFields fs from rfl]
  intro hm
  simp only [List.mem_append, List.mem_cons] at hm
  rcases hm with ((h | h) | h | h) | h
  · exact absurd h (by decide)
  · exact noNL_renderString k h
  · exact absurd h (by decide)
  · exact hv h
  · exact hfs h

/-- An object with newline-free member values renders newline-free. -/
theorem noNL_render_obj (k : List Char) (v : Json)
    (fs : List (List Char × Json))
    (hv : ('\n' : Char) ∉ render v)
    (hfs : ('\n' : Char) ∉ renderFields fs) :
    ('\n' : Char) ∉ render (Json.obj ((k, v) :: fs)) := by
  rw [show render (Json.obj ((k, v) :: fs)) =
    '\x7b' :: (renderString k ++ ':' :: render v ++ renderFields fs) ++ ['\x7d']
    from rfl]
  intro hm
  simp only [List.mem_append, List.mem_cons, List.mem_singleton] at hm
  rcases hm with (h | (h | h | h) | h) | h
  · exact absurd h (by decide)
  · exact noNL_renderString k h
  · exact absurd h (by decide)
  · exact hv h
  · exact hfs h
  · exact absurd h (by decide)

/-- No serialized `DaemonMsg` document contains a raw newline. -/
theorem noNL_render_daemon (m : DaemonMsg) :
    ('\n' : Char) ∉ render (toJsonDaemon m) := by
  cases m with
  | ShowPopup base accents labels =>
    exact noNL_render_obj _ _ _ (noNL_render_str _)
      (noNL_renderFields_cons _ _ _ (noNL_render_str _)
        (noNL_renderFields_cons _ _ _ (noNL_render_arrStr accents)
          (noNL_renderFields_cons _ _ _ (noNL_render_arrNum labels)
            (by decide))))
  | HidePopup =>
    exact noNL_render_obj _ _ _ (noNL_render_str _) (by decide)
  | Status enabled locale version =>
    exact noNL_render_obj _ _ _ (noNL_render_str _)
      (noNL_renderFields_cons _ _ _ (noNL_render_bool enabled)
        (noNL_renderFields_cons _ _ _ (noNL_render_str _)
          (noNL_renderFields_cons _ _ _ (noNL_render_str _)
            (by decide))))
  | Ack ok message =>
    exact noNL_render_obj _ _ _ (noNL_render_str _)
      (noNL_renderFields_cons _ _ _ (noNL_render_bool ok)
        (noNL_renderFields_cons _ _ _ (noNL_render_str _)
          (by decide)))

/-- No serialized `ClientMsg` document contains a raw newline. -/
theorem noNL_render_client (m : ClientMsg) :
    ('\n' : Char) ∉ render (toJsonClient m) := by
  cases m with
  | Select index =>
    exact noNL_render_obj _ _ _ (noNL_render_str _)
      (noNL_renderFields_cons _ _ _ (noNL_render_num _) (by decide))
  | Dismiss => exact noNL_render_obj _ _ _ (noNL_render_str _) (by decide)
  | Toggle => exact noNL_render_obj _ _ _ (noNL_render_str _) (by decide)
  | Enable => exact noNL_render_obj _ _ _ (noNL_render_str _) (by decide)
  | Disable => exact noNL_render_obj _ _ _ (noNL_render_str _) (by decide)
  | SetLocale locale =>
    exact noNL_render_obj _ _ _ (noNL_render_str _)
      (noNL_renderFields_cons _ _ _ (noNL_render_str _) (by decide))
  | GetStatus => exact noNL_render_obj _ _ _ (noNL_render_str _) (by decide)
  | RegisterPopup => exact noNL_render_obj _ _ _ (noNL_render_str _) (by decide)

/-- Every serialized `DaemonMsg` keeps a top-level object shape. -/
theorem toJsonDaemon_obj (m : DaemonMsg) :
    ∃ k v fs, toJsonDaemon m = Json.obj ((k, v) :: fs) := by
  cases m
  · exact ⟨_, _, _, rfl⟩
  · exact ⟨_, _, _, rfl⟩
  · exact ⟨_, _, _, rfl⟩
  · exact ⟨_, _, _, rfl⟩

/-- Every serialized `ClientMsg` keeps a top-level object shape. -/
theorem toJsonClient_obj (m : ClientMsg) :
    ∃ k v fs, toJsonClient m = Json.obj ((k, v) :: fs) := by
  cases m
  · exact ⟨_, _, _, rfl⟩
  · exact ⟨_, _, _, rfl⟩
  · exact ⟨_, _, _, rfl⟩
  · exact ⟨_, _, _, rfl⟩
  · exact ⟨_, _, _, rfl⟩
  · exact ⟨_, _, _, rfl⟩
  · exact ⟨_, _, _, rfl⟩
  · exact ⟨_, _, _, rfl⟩

/-- Trimming the encoded line of a message document removes exactly the
trailing newline. -/
theorem trim_encode (j : Json) (k : List Char) (v : Json)
    (fs : List (List Char × Json)) (hobj : j = Json.obj ((k, v) :: fs)) :
    trimChars (render j ++ ['\n']) = render j := by
  subst hobj
  rw [show render (Json.obj ((k, v) :: fs)) =
    '\x7b' :: (renderString k ++ ':' :: render v ++ renderFields fs) ++ ['\x7d']
    from rfl]
  exact trim_wrap _

/-- `decode_daemon` undoes `encode_daemon`. -/
theorem decode_encode_daemon (m : DaemonMsg) :
    decode_daemon (encode_daemon m) = some m := by
  obtain ⟨k, v, fs, hobj⟩ := toJsonDaemon_obj m
  have hne : render (toJsonDaemon m) ≠ [] := by
    rw [hobj, show render (Json.obj ((k, v) :: fs)) =
      '\x7b' :: (renderString k ++ ':' :: render v ++ renderFields fs) ++ ['\x7d']
      from rfl]
    simp
  unfold decode_daemon encode_daemon
  dsimp only
  rw [trim_encode (toJsonDaemon m) k v fs hobj]
  rw [if_neg hne]
  rw [parse_render_doc (toJsonDaemon m)]
  exact fromJson_toJson_daemon m

/-- `decode_client` undoes `encode_client`. -/
theorem decode_encode_client (m : ClientMsg) :
    decode_client (encode_client m) = some m := by
  obtain ⟨k, v, fs, hobj⟩ := toJsonClient_obj m
  have hne : render (toJsonClient m) ≠ [] := by
    rw [hobj, show render (Json.obj ((k, v) :: fs)) =
      '\x7b' :: (renderString k ++ ':' :: render v ++ renderFields fs) ++ ['\x7d']
      from rfl]
    simp
  unfold decode_client encode_client
  dsimp only
  rw [trim_encode (toJsonClient m) k v fs hobj]
  rw [if_neg hne]
  rw [parse_render_doc (toJsonClient m)]
  exact fromJson_toJson_client m

/-- C8: for every `DaemonMsg` and every `ClientMsg`, decoding the encoded
line yields the original message, and the encoded line is a newline-free
serde_json document followed by exactly one trailing newline. -/
theorem C8_codec_round_trip :
    (∀ m : DaemonMsg, decode_daemon (encode_daemon m) = some m) ∧
    (∀ m : ClientMsg, decode_client (encode_client m) = some m) ∧
    (∀ m : DaemonMsg, ∃ s, encode_daemon m = s ++ ['\n'] ∧ ('\n' : Char) ∉ s) ∧
    (∀ m : ClientMsg, ∃ s, encode_client m = s ++ ['\n'] ∧ ('\n' : Char) ∉ s) :=
  ⟨decode_encode_daemon, decode_encode_client,
   fun m => ⟨render (toJsonDaemon m), rfl, noNL_render_daemon m⟩,
   fun m => ⟨render (toJsonClient m), rfl, noNL_render_client m⟩⟩

end Accentd
